import Mathlib

/-!
Verification of the octree color-quantization subsystem declared in
`src/render/quantization.h` (classes `Node` and `Octree`, plus the
`convert_pixel_format` driver).  The header contains the data layout and the
inline constructors; the bodies of the recursive member functions are only
declared there, so those operations are modelled from the specification's
description of them (each such definition carries a doc comment starting
`Modelled from the spec:`).  Everything that the header itself defines
(field layout, the two `Node` constructors, the two `Octree` constructors)
is translated directly from the source.
-/

namespace render

/-- A 4-channel color (`doc::color_t` seen through `rgba_getr` &c.): the
R, G, B, A channel values, each conceptually 0-255. -/
structure Color where
  r : Nat
  g : Nat
  b : Nat
  a : Nat
deriving DecidableEq, Repr

mutual
/-- Embeds `render::Node` (quantization.h lines 52-99): one cell of the
recursively subdivided color cube.  `m_children` is the
`std::vector<Node>` of children; the five counters are the accumulated
pixel count and per-channel sums. -/
inductive Node where
  | mk (m_nodeLevel : Nat) (m_haveChildren : Bool) (m_withAlpha : Bool)
       (m_children : NodeList)
       (m_pixel_count m_R_AcumChannel m_G_AcumChannel m_B_AcumChannel m_A_AcumChannel : Nat)

/-- The `std::vector<Node>` of children, as a mutually-inductive list so the
tree operations stay structurally recursive. -/
inductive NodeList where
  | nil
  | cons (head : Node) (tail : NodeList)
end

def Node.m_nodeLevel : Node → Nat
  | .mk l _ _ _ _ _ _ _ _ => l

def Node.m_haveChildren : Node → Bool
  | .mk _ hc _ _ _ _ _ _ _ => hc

def Node.m_withAlpha : Node → Bool
  | .mk _ _ wa _ _ _ _ _ _ => wa

def Node.m_children : Node → NodeList
  | .mk _ _ _ ch _ _ _ _ _ => ch

def Node.m_pixel_count : Node → Nat
  | .mk _ _ _ _ pc _ _ _ _ => pc

def Node.m_R_AcumChannel : Node → Nat
  | .mk _ _ _ _ _ r _ _ _ => r

def Node.m_G_AcumChannel : Node → Nat
  | .mk _ _ _ _ _ _ g _ _ => g

def Node.m_B_AcumChannel : Node → Nat
  | .mk _ _ _ _ _ _ _ b _ => b

def Node.m_A_AcumChannel : Node → Nat
  | .mk _ _ _ _ _ _ _ _ a => a

def NodeList.length : NodeList → Nat
  | .nil => 0
  | .cons _ ts => ts.length + 1

def NodeList.isNil : NodeList → Bool
  | .nil => true
  | .cons _ _ => false

def NodeList.toList : NodeList → List Node
  | .nil => []
  | .cons t ts => t :: ts.toList

def NodeList.replicate : Nat → Node → NodeList
  | 0, _ => .nil
  | n+1, t => .cons t (NodeList.replicate n t)

/-- The four-argument constructor `Node::Node(int leafLevel, bool
haveChildren, int levelDeep, bool withAlpha)` (lines 66-79): when
`levelDeep > leafLevel+1` it push_backs `withAlpha ? 16 : 8` copies of
`Node(leafLevel+1, levelDeep == leafLevel+2 ? false : true, levelDeep,
withAlpha)`; otherwise the children vector stays empty.  Here the recursion
is driven by the fuel `d = levelDeep - leafLevel`: the test
`levelDeep > leafLevel+1` is `d ≥ 2`, the child's fuel is `d - 1`, and the
child's flag `levelDeep == leafLevel+2 ? false : true` is `!(d == 2)`,
i.e. `!(d' == 0)` for `d = d' + 2`. -/
def mkNodeAux : Nat → Nat → Bool → Bool → Node
  | 0, l, hc, wa => .mk l hc wa .nil 0 0 0 0 0
  | 1, l, hc, wa => .mk l hc wa .nil 0 0 0 0 0
  | d+2, l, hc, wa =>
    .mk l hc wa
      (NodeList.replicate (if wa then 16 else 8) (mkNodeAux (d+1) (l+1) (!(d == 0)) wa))
      0 0 0 0 0

/-- `Node::Node(int, bool, int, bool)` with its original argument list. -/
def mkNode (leafLevel : Nat) (haveChildren : Bool) (levelDeep : Nat) (withAlpha : Bool) : Node :=
  mkNodeAux (levelDeep - leafLevel) leafLevel haveChildren withAlpha

/-- Modelled from the spec: `Node::GetIndex(color_t)` computes the child
index for a color at this node's depth "by extracting, per channel, the bit
at position `7 - level`", "optionally including the alpha channel's bit to
select among up to 16 children".  Bit order chosen R (bit 2), G (bit 1),
B (bit 0), with the alpha bit as bit 3 when `withAlpha`. -/
def GetIndex (c : Color) (lvl : Nat) (withAlpha : Bool) : Nat :=
  (c.r >>> (7 - lvl)) % 2 * 4 + (c.g >>> (7 - lvl)) % 2 * 2 + (c.b >>> (7 - lvl)) % 2 +
    (if withAlpha then (c.a >>> (7 - lvl)) % 2 * 8 else 0)

mutual
/-- Modelled from the spec: `Node::AddColor(color_t)` — "if this node is a
leaf, increments `pixelCount` and adds each channel value of `c` into the
running sums (always accumulate all 4 channels)"; "if this node is
internal, computes the child index for `c` at this node's depth … and
recurses into that child, creating/selecting it deterministically from the
pre-built `children` sequence". -/
def Node.AddColor (c : Color) : Node → Node
  | .mk l hc wa ch pc r g b a =>
    if hc then .mk l hc wa (NodeList.addAt c (GetIndex c l wa) ch) pc r g b a
    else .mk l hc wa ch (pc + 1) (r + c.r) (g + c.g) (b + c.b) (a + c.a)

/-- Recursing into the child at the given index of the pre-built children
sequence (a no-op when no child exists at that index). -/
def NodeList.addAt (c : Color) : Nat → NodeList → NodeList
  | _, .nil => .nil
  | 0, .cons t ts => .cons (Node.AddColor c t) ts
  | i+1, .cons t ts => .cons t (NodeList.addAt c i ts)
end

/-- Modelled from the spec: `Node::GetColor()` — "for a leaf, returns the
statistical average color — each channel = accumulated sum / `pixelCount`
(undefined/zero for a never-visited leaf)".  `Nat` division gives 0 when
`pixelCount = 0`. -/
def Node.GetColor : Node → Color
  | .mk _ _ _ _ pc r g b a => ⟨r / pc, g / pc, b / pc, a / pc⟩

mutual
/-- Modelled from the spec: the total counted by
`Node::GetLeavesCount(int&,int&,const int&)` — "counts total non-empty
leaves" (a leaf counts when its `pixelCount` is positive; internal nodes
recurse over their children). -/
def Node.GetLeavesCount : Node → Nat
  | .mk _ hc _ ch pc _ _ _ _ => if hc then NodeList.leavesCount ch else if pc > 0 then 1 else 0

def NodeList.leavesCount : NodeList → Nat
  | .nil => 0
  | .cons t ts => Node.GetLeavesCount t + NodeList.leavesCount ts
end

mutual
/-- Modelled from the spec: the palette-emission traversal of
`Octree::GeneratePalette` — "emits one palette entry per surviving
non-empty leaf, in a fixed deterministic traversal order (depth-first,
children visited in index order), via each leaf's `GetColor()`". -/
def Node.paletteColors : Node → List Color
  | .mk _ hc _ ch pc r g b a =>
    if hc then NodeList.paletteList ch
    else if pc > 0 then [⟨r / pc, g / pc, b / pc, a / pc⟩] else []

def NodeList.paletteList : NodeList → List Color
  | .nil => []
  | .cons t ts => t.paletteColors ++ ts.paletteList
end

def NodeList.allLeaves : NodeList → Bool
  | .nil => true
  | .cons t ts => !t.m_haveChildren && NodeList.allLeaves ts

def NodeList.sumPc : NodeList → Nat
  | .nil => 0
  | .cons t ts => t.m_pixel_count + ts.sumPc

def NodeList.sumR : NodeList → Nat
  | .nil => 0
  | .cons t ts => t.m_R_AcumChannel + ts.sumR

def NodeList.sumG : NodeList → Nat
  | .nil => 0
  | .cons t ts => t.m_G_AcumChannel + ts.sumG

def NodeList.sumB : NodeList → Nat
  | .nil => 0
  | .cons t ts => t.m_B_AcumChannel + ts.sumB

def NodeList.sumA : NodeList → Nat
  | .nil => 0
  | .cons t ts => t.m_A_AcumChannel + ts.sumA

mutual
/-- Modelled from the spec: `Node::KillLastLevel()` — "recursively
collapses the deepest level of children into their parent (merging each
deepest child's statistics into the parent and discarding the child)".  A
node all of whose children are leaves absorbs their statistics and becomes
a leaf; other internal nodes recurse. -/
def Node.KillLastLevel : Node → Node
  | .mk l hc wa ch pc r g b a =>
    if hc then
      if ch.allLeaves then
        .mk l false wa .nil (pc + ch.sumPc) (r + ch.sumR) (g + ch.sumG) (b + ch.sumB) (a + ch.sumA)
      else .mk l hc wa (NodeList.killList ch) pc r g b a
    else .mk l hc wa ch pc r g b a

def NodeList.killList : NodeList → NodeList
  | .nil => .nil
  | .cons t ts => .cons t.KillLastLevel ts.killList
end

mutual
/-- Height of the tree: 0 for a node without children, otherwise one more
than the tallest child. -/
def Node.height : Node → Nat
  | .mk _ _ _ ch _ _ _ _ _ => NodeList.heightAux ch

def NodeList.heightAux : NodeList → Nat
  | .nil => 0
  | .cons t ts => max (t.height + 1) (NodeList.heightAux ts)
end

/-- Modelled from the spec: the pruning loop of `Octree::GeneratePalette` —
"while leaf count exceeds the target palette size, repeatedly calls
`root.KillLastLevel()` and recounts".  The fuel argument only bounds the
model's recursion; it is instantiated with the tree height, which the loop
can never exhaust before its own exit condition holds. -/
def pruneLoop : Nat → Nat → Node → Node
  | 0, _, t => t
  | fuel+1, target, t =>
    if t.GetLeavesCount ≤ target then t else pruneLoop fuel target t.KillLastLevel

/-- The aseprite `CLAMP(min, v, max)` macro on naturals. -/
def CLAMP (lo x hi : Nat) : Nat := max lo (min x hi)

/-- Embeds `render::Octree` (lines 101-124): the target palette size (the
size `targetQuantity` the `m_palette` vector is constructed with), the root
node, and the stored (clamped) `m_levelDeep`. -/
structure Octree where
  m_paletteCapacity : Nat
  m_root : Node
  m_levelDeep : Nat

/-- The two-argument-plus-flag constructor `Octree(int targetQuantity, int
levelDeep, bool withAlpha)` (lines 110-114): `m_palette(targetQuantity)`,
`m_root(0, true, levelDeep, withAlpha)` — note the *unclamped* `levelDeep`
— then `m_levelDeep = CLAMP(1, levelDeep, 8)`. -/
def Octree.make (targetQuantity levelDeep : Nat) (withAlpha : Bool) : Octree :=
  ⟨targetQuantity, mkNode 0 true levelDeep withAlpha, CLAMP 1 levelDeep 8⟩

/-- The default constructor `Octree()` (lines 104-108): `m_palette(256)`,
`m_root(0, true, 6, false)`, `m_levelDeep(6)`. -/
def Octree.mkDefault : Octree :=
  ⟨256, mkNode 0 true 6 false, 6⟩

/-- `Octree::AddColor(color_t)` delegates to the root's `AddColor`. -/
def Octree.AddColor (c : Color) (o : Octree) : Octree :=
  ⟨o.m_paletteCapacity, o.m_root.AddColor c, o.m_levelDeep⟩

/-- Feeding a sequence of colors one by one. -/
def Octree.feed (xs : List Color) (o : Octree) : Octree :=
  xs.foldl (fun acc c => acc.AddColor c) o

/-- Modelled from the spec: `Octree::feedWithImage(Image*, bool)` —
"iterates every pixel of the image (converted to a 4-channel color),
calling `AddColor` for each"; the image is a row-major list of pixel rows. -/
def Octree.feedWithImage (img : List (List Color)) (o : Octree) : Octree :=
  o.feed img.flatten

/-- Feeding a sequence of colors into a bare node. -/
def feedColors (xs : List Color) (t : Node) : Node :=
  xs.foldl (fun acc c => acc.AddColor c) t

/-- Modelled from the spec: `Octree::GeneratePalette(Palette*)` — "(a)
counts total non-empty leaves via `GetLeavesCount`; (b) while leaf count
exceeds the target palette size, repeatedly calls `root.KillLastLevel()`
and recounts; (c) once at or below target, emits one palette entry per
surviving non-empty leaf" in depth-first order. -/
def Octree.GeneratePalette (o : Octree) : List Color :=
  (pruneLoop o.m_root.height o.m_paletteCapacity o.m_root).paletteColors

mutual
/-- Modelled from the spec: merging two independently accumulated octree
nodes "by pairwise leaf summation" — "adding corresponding leaves'
`pixelCount` and channel sums pairwise".  Structure fields are taken from
the first tree (the trees being merged have equal shape). -/
def Node.merge : Node → Node → Node
  | .mk l hc wa ch pc r g b a, .mk _ _ _ ch2 pc2 r2 g2 b2 a2 =>
    .mk l hc wa (NodeList.mergeList ch ch2) (pc + pc2) (r + r2) (g + g2) (b + b2) (a + a2)

def NodeList.mergeList : NodeList → NodeList → NodeList
  | .nil, _ => .nil
  | .cons _ _, .nil => .nil
  | .cons t ts, .cons u us => .cons (t.merge u) (NodeList.mergeList ts us)
end

mutual
/-- Two nodes have the same shape: equal level, flags and children shapes. -/
def Node.sameShape : Node → Node → Bool
  | .mk l hc wa ch _ _ _ _ _, .mk l2 hc2 wa2 ch2 _ _ _ _ _ =>
    l == l2 && hc == hc2 && wa == wa2 && NodeList.sameShapeList ch ch2

def NodeList.sameShapeList : NodeList → NodeList → Bool
  | .nil, .nil => true
  | .cons t ts, .cons u us => Node.sameShape t u && NodeList.sameShapeList ts us
  | _, _ => false
end

mutual
/-- The tree is a uniform-depth octree of height `d`: at `0` a leaf
(`m_haveChildren = false`, empty children vector); at `d+1` an internal
node with a non-empty children vector, all of uniform depth `d`. -/
def Node.uniform : Nat → Node → Bool
  | 0, .mk _ hc _ ch _ _ _ _ _ => !hc && ch.isNil
  | d+1, .mk _ hc _ ch _ _ _ _ _ => hc && !ch.isNil && NodeList.uniformList d ch

def NodeList.uniformList : Nat → NodeList → Bool
  | _, .nil => true
  | d, .cons t ts => Node.uniform d t && NodeList.uniformList d ts
end

mutual
/-- Pixel statistics live only at leaves: every internal node's counters
are all zero. -/
def Node.goodStats : Node → Bool
  | .mk _ hc _ ch pc r g b a =>
    (!hc || (pc == 0 && r == 0 && g == 0 && b == 0 && a == 0)) && NodeList.goodStatsList ch

def NodeList.goodStatsList : NodeList → Bool
  | .nil => true
  | .cons t ts => t.goodStats && NodeList.goodStatsList ts
end

mutual
/-- All counters of all nodes are zero (a freshly constructed tree). -/
def Node.zeroStats : Node → Bool
  | .mk _ _ _ ch pc r g b a =>
    pc == 0 && r == 0 && g == 0 && b == 0 && a == 0 && NodeList.zeroList ch

def NodeList.zeroList : NodeList → Bool
  | .nil => true
  | .cons t ts => t.zeroStats && NodeList.zeroList ts
end

mutual
/-- The node is a leaf exactly when `m_haveChildren` is false, at every
node of the tree (the invariant the spec states for `Node`). -/
def Node.hcConsistent : Node → Bool
  | .mk _ hc _ ch _ _ _ _ _ => (hc == !ch.isNil) && NodeList.hcConsistentList ch

def NodeList.hcConsistentList : NodeList → Bool
  | .nil => true
  | .cons t ts => t.hcConsistent && NodeList.hcConsistentList ts
end

mutual
/-- Every stored `m_nodeLevel` is strictly below the bound. -/
def Node.levelsBelow : Nat → Node → Bool
  | bnd, .mk l _ _ ch _ _ _ _ _ => decide (l < bnd) && NodeList.levelsBelowList bnd ch

def NodeList.levelsBelowList : Nat → NodeList → Bool
  | _, .nil => true
  | bnd, .cons t ts => Node.levelsBelow bnd t && NodeList.levelsBelowList bnd ts
end

mutual
/-- The leaf the color would be accumulated into is still empty (false when
the descent leaves the pre-built tree). -/
def Node.pathEmpty (c : Color) : Node → Bool
  | .mk l hc wa ch pc _ _ _ _ =>
    if hc then NodeList.pathEmptyAt c (GetIndex c l wa) ch else pc == 0

def NodeList.pathEmptyAt (c : Color) : Nat → NodeList → Bool
  | _, .nil => false
  | 0, .cons t _ => t.pathEmpty c
  | i+1, .cons _ ts => NodeList.pathEmptyAt c i ts
end

def NodeList.anyNonEmptyLeaf : NodeList → Bool
  | .nil => false
  | .cons t ts => (!t.m_haveChildren && decide (0 < t.m_pixel_count)) || ts.anyNonEmptyLeaf

mutual
/-- Modelled from the spec: the number of populated level-(maxDepth-1)
cells — the internal nodes all of whose children are leaves (the parents
of the deepest level) that contain at least one non-empty leaf. -/
def Node.populatedPreLeaf : Node → Nat
  | .mk _ hc _ ch _ _ _ _ _ =>
    if hc then
      if ch.allLeaves then (if ch.anyNonEmptyLeaf then 1 else 0)
      else NodeList.populatedPreLeafList ch
    else 0

def NodeList.populatedPreLeafList : NodeList → Nat
  | .nil => 0
  | .cons t ts => t.populatedPreLeaf + NodeList.populatedPreLeafList ts
end

/-- How many of the colors in the list fall, in order, into a leaf that is
still empty when that color arrives: the number of new non-empty leaves the
list creates when fed into `t`. -/
def freshCount : Node → List Color → Nat
  | _, [] => 0
  | t, c :: cs => (if t.pathEmpty c then 1 else 0) + freshCount (t.AddColor c) cs

/-- Outcome of `convert_pixel_format`: ran to completion or was canceled by
the task delegate. -/
inductive ConvertStatus where
  | completed
  | canceled
deriving DecidableEq, Repr

/-- Modelled from the spec: the row loop of `convert_pixel_format` — the
delegate's cancellation flag is polled between rows; once cancellation is
observed the loop stops, keeping the rows converted so far and signalling
"canceled" instead of "completed". `isCanceled i` is the value the
delegate's flag has when polled before row `i`. -/
def convertRowsFrom (convRow : List Color → List Color) (isCanceled : Nat → Bool) :
    Nat → List (List Color) → ConvertStatus × List (List Color)
  | _, [] => (.completed, [])
  | i, row :: rows =>
    if isCanceled i then (.canceled, [])
    else
      let rest := convertRowsFrom convRow isCanceled (i+1) rows
      (rest.1, convRow row :: rest.2)

/-- Modelled from the spec: `convert_pixel_format` restricted to what the
claim is about — the per-row conversion loop with cooperative
cancellation, returning the outcome and the converted destination rows. -/
def convert_pixel_format (convRow : List Color → List Color) (isCanceled : Nat → Bool)
    (src : List (List Color)) : ConvertStatus × List (List Color) :=
  convertRowsFrom convRow isCanceled 0 src

/-- The default constructor `Node::Node()` (lines 54-64): its member
initialiser `m_children(8)` makes the children vector hold 8
default-constructed `Node`s, each built by `Node::Node()` again.  A value
`t` satisfies this predicate exactly when it is a possible finite result of
that constructor: level 0, `m_haveChildren` false, `m_withAlpha` false,
all counters zero, and 8 children that are themselves results of the
default constructor. -/
inductive IsDefaultCtorResult : Node → Prop where
  | intro : ∀ ch : NodeList, ch.length = 8 → (∀ t, t ∈ ch.toList → IsDefaultCtorResult t) →
      IsDefaultCtorResult (Node.mk 0 false false ch 0 0 0 0 0)

/-! ## Induction principles -/

/-- Simultaneous structural induction over a node and a children list. -/
theorem node_mutual_ind (P : Node → Prop) (Q : NodeList → Prop)
    (hmk : ∀ l hc wa ch pc r g b a, Q ch → P (.mk l hc wa ch pc r g b a))
    (hnil : Q .nil) (hcons : ∀ t ts, P t → Q ts → Q (.cons t ts)) :
    (∀ t, P t) ∧ (∀ ts, Q ts) :=
  ⟨fun t => @Node.rec P Q hmk hnil hcons t, fun ts => @NodeList.rec P Q hmk hnil hcons ts⟩

/-- Structural induction over a node, with the induction hypothesis
available for every member of the children list. -/
theorem node_ind (P : Node → Prop)
    (h : ∀ l hc wa ch pc r g b a, (∀ t, t ∈ ch.toList → P t) → P (.mk l hc wa ch pc r g b a)) :
    ∀ t, P t :=
  (node_mutual_ind P (fun ts => ∀ t, t ∈ ts.toList → P t) h
    (fun t ht => by simp [NodeList.toList] at ht)
    (fun u ts hu hts t ht => by
      rcases (by simpa [NodeList.toList] using ht : t = u ∨ t ∈ ts.toList) with h1 | h2
      · exact h1 ▸ hu
      · exact hts t h2)).1

/-- Plain structural induction over a children list. -/
theorem nodeList_ind (Q : NodeList → Prop) (h0 : Q .nil)
    (h1 : ∀ t ts, Q ts → Q (.cons t ts)) : ∀ ts, Q ts :=
  fun ts => @NodeList.rec (fun _ => True) Q (fun _ _ _ _ _ _ _ _ _ _ => trivial) h0
    (fun t ts _ ih => h1 t ts ih) ts

/-! ## Commutativity of accumulation (order-independence) -/

theorem AddColor_comm_both :
    (∀ t : Node, ∀ c c', (t.AddColor c).AddColor c' = (t.AddColor c').AddColor c) ∧
    (∀ ts : NodeList, ∀ c c' i j,
      NodeList.addAt c' j (NodeList.addAt c i ts) = NodeList.addAt c i (NodeList.addAt c' j ts)) := by
  refine node_mutual_ind _ _ ?_ ?_ ?_
  · intro l hc wa ch pc r g b a ihch c c'
    cases hc
    · simp only [Node.AddColor, Bool.false_eq_true, if_false, Node.mk.injEq, true_and]
      omega
    · simp only [Node.AddColor, if_true, Node.mk.injEq, true_and, and_true]
      exact ihch c c' _ _
  · intro c c' i j
    cases i <;> cases j <;> simp [NodeList.addAt]
  · intro t ts iht ihts c c' i j
    cases i <;> cases j <;> simp [NodeList.addAt]
    · exact iht c c'
    · exact ihts c c' _ _

theorem AddColor_comm (t : Node) (c c' : Color) :
    (t.AddColor c).AddColor c' = (t.AddColor c').AddColor c :=
  AddColor_comm_both.1 t c c'

theorem feedColors_cons (c : Color) (xs : List Color) (t : Node) :
    feedColors (c :: xs) t = feedColors xs (t.AddColor c) := rfl

theorem feedColors_append (xs ys : List Color) (t : Node) :
    feedColors (xs ++ ys) t = feedColors ys (feedColors xs t) :=
  List.foldl_append _ _ _ _

theorem feedColors_perm {xs ys : List Color} (h : xs.Perm ys) :
    ∀ t : Node, feedColors xs t = feedColors ys t := by
  induction h with
  | nil => intro t; rfl
  | cons x _ ih => intro t; rw [feedColors_cons, feedColors_cons, ih]
  | swap x y l =>
    intro t
    rw [feedColors_cons, feedColors_cons, feedColors_cons, feedColors_cons, AddColor_comm]
  | trans _ _ ih1 ih2 => intro t; rw [ih1, ih2]

/-! ## Structure preservation under accumulation -/

theorem addAt_isNil (c : Color) (i : Nat) (ts : NodeList) :
    (NodeList.addAt c i ts).isNil = ts.isNil := by
  cases ts <;> cases i <;> simp [NodeList.addAt, NodeList.isNil]

theorem AddColor_uniform_both :
    (∀ t : Node, ∀ c d, (t.AddColor c).uniform d = t.uniform d) ∧
    (∀ ts : NodeList, ∀ c i d, (NodeList.addAt c i ts).uniformList d = ts.uniformList d) := by
  refine node_mutual_ind _ _ ?_ ?_ ?_
  · intro l hc wa ch pc r g b a ihch c d
    cases hc <;> cases d <;>
      simp [Node.AddColor, Node.uniform, addAt_isNil, ihch]
  · intro c i d
    simp [NodeList.addAt]
  · intro t ts iht ihts c i d
    cases i <;> simp [NodeList.addAt, NodeList.uniformList, iht, ihts]

theorem AddColor_uniform (t : Node) (c : Color) (d : Nat) :
    (t.AddColor c).uniform d = t.uniform d :=
  AddColor_uniform_both.1 t c d

theorem AddColor_goodStats_both :
    (∀ t : Node, ∀ c, (t.AddColor c).goodStats = t.goodStats) ∧
    (∀ ts : NodeList, ∀ c i, (NodeList.addAt c i ts).goodStatsList = ts.goodStatsList) := by
  refine node_mutual_ind _ _ ?_ ?_ ?_
  · intro l hc wa ch pc r g b a ihch c
    cases hc <;> simp [Node.AddColor, Node.goodStats, ihch]
  · intro c i
    simp [NodeList.addAt]
  · intro t ts iht ihts c i
    cases i <;> simp [NodeList.addAt, NodeList.goodStatsList, iht, ihts]

theorem AddColor_goodStats (t : Node) (c : Color) :
    (t.AddColor c).goodStats = t.goodStats :=
  AddColor_goodStats_both.1 t c

theorem AddColor_hcConsistent_both :
    (∀ t : Node, ∀ c, (t.AddColor c).hcConsistent = t.hcConsistent) ∧
    (∀ ts : NodeList, ∀ c i, (NodeList.addAt c i ts).hcConsistentList = ts.hcConsistentList) := by
  refine node_mutual_ind _ _ ?_ ?_ ?_
  · intro l hc wa ch pc r g b a ihch c
    cases hc <;> simp [Node.AddColor, Node.hcConsistent, addAt_isNil, ihch]
  · intro c i
    simp [NodeList.addAt]
  · intro t ts iht ihts c i
    cases i <;> simp [NodeList.addAt, NodeList.hcConsistentList, iht, ihts]

theorem AddColor_levelsBelow_both :
    (∀ t : Node, ∀ c bnd, (t.AddColor c).levelsBelow bnd = t.levelsBelow bnd) ∧
    (∀ ts : NodeList, ∀ c i bnd,
      (NodeList.addAt c i ts).levelsBelowList bnd = ts.levelsBelowList bnd) := by
  refine node_mutual_ind _ _ ?_ ?_ ?_
  · intro l hc wa ch pc r g b a ihch c bnd
    cases hc <;> simp [Node.AddColor, Node.levelsBelow, ihch]
  · intro c i bnd
    simp [NodeList.addAt]
  · intro t ts iht ihts c i bnd
    cases i <;> simp [NodeList.addAt, NodeList.levelsBelowList, iht, ihts]

/-! ## Exact accounting of non-empty leaves -/

theorem AddColor_leaves_both :
    (∀ t : Node, ∀ c,
      (t.AddColor c).GetLeavesCount = t.GetLeavesCount + (if t.pathEmpty c then 1 else 0)) ∧
    (∀ ts : NodeList, ∀ c i,
      (NodeList.addAt c i ts).leavesCount
        = ts.leavesCount + (if NodeList.pathEmptyAt c i ts then 1 else 0)) := by
  refine node_mutual_ind _ _ ?_ ?_ ?_
  · intro l hc wa ch pc r g b a ihch c
    cases hc
    · by_cases hpc : pc = 0
      · simp [Node.AddColor, Node.GetLeavesCount, Node.pathEmpty, hpc]
      · simp [Node.AddColor, Node.GetLeavesCount, Node.pathEmpty, hpc,
          Nat.pos_of_ne_zero hpc]
    · simp only [Node.AddColor, if_true, Node.GetLeavesCount, Node.pathEmpty]
      exact ihch c _
  · intro c i
    simp [NodeList.addAt, NodeList.pathEmptyAt, NodeList.leavesCount]
  · intro t ts iht ihts c i
    cases i
    · simp only [NodeList.addAt, NodeList.leavesCount, NodeList.pathEmptyAt, iht c]
      omega
    · simp only [NodeList.addAt, NodeList.leavesCount, NodeList.pathEmptyAt, ihts c _]
      omega

theorem AddColor_leaves (t : Node) (c : Color) :
    (t.AddColor c).GetLeavesCount = t.GetLeavesCount + (if t.pathEmpty c then 1 else 0) :=
  AddColor_leaves_both.1 t c

theorem pathEmpty_persist_both :
    (∀ t : Node, ∀ c c', t.pathEmpty c = false → (t.AddColor c').pathEmpty c = false) ∧
    (∀ ts : NodeList, ∀ c c' i j, NodeList.pathEmptyAt c i ts = false →
      NodeList.pathEmptyAt c i (NodeList.addAt c' j ts) = false) := by
  refine node_mutual_ind _ _ ?_ ?_ ?_
  · intro l hc wa ch pc r g b a ihch c c' h
    cases hc
    · simp [Node.AddColor, Node.pathEmpty]
    · simp only [Node.AddColor, if_true, Node.pathEmpty] at h ⊢
      exact ihch c c' _ _ h
  · intro c c' i j h
    simpa [NodeList.addAt] using h
  · intro t ts iht ihts c c' i j h
    cases i <;> cases j <;>
      simp only [NodeList.addAt, NodeList.pathEmptyAt] at h ⊢
    · exact iht c c' h
    · exact h
    · exact h
    · exact ihts c c' _ _ h

theorem pathEmpty_persist (t : Node) (c c' : Color) (h : t.pathEmpty c = false) :
    (t.AddColor c').pathEmpty c = false :=
  pathEmpty_persist_both.1 t c c' h

theorem pathEmpty_self_both :
    (∀ t : Node, ∀ c, (t.AddColor c).pathEmpty c = false) ∧
    (∀ ts : NodeList, ∀ c i, NodeList.pathEmptyAt c i (NodeList.addAt c i ts) = false) := by
  refine node_mutual_ind _ _ ?_ ?_ ?_
  · intro l hc wa ch pc r g b a ihch c
    cases hc
    · simp [Node.AddColor, Node.pathEmpty]
    · simp only [Node.AddColor, if_true, Node.pathEmpty]
      exact ihch c _
  · intro c i
    simp [NodeList.addAt, NodeList.pathEmptyAt]
  · intro t ts iht ihts c i
    cases i <;> simp only [NodeList.addAt, NodeList.pathEmptyAt]
    · exact iht c
    · exact ihts c _

theorem pathEmpty_self (t : Node) (c : Color) : (t.AddColor c).pathEmpty c = false :=
  pathEmpty_self_both.1 t c

theorem paletteColors_length_both :
    (∀ t : Node, t.paletteColors.length = t.GetLeavesCount) ∧
    (∀ ts : NodeList, ts.paletteList.length = ts.leavesCount) := by
  refine node_mutual_ind _ _ ?_ ?_ ?_
  · intro l hc wa ch pc r g b a ihch
    cases hc
    · by_cases hpc : pc = 0
      · simp [Node.paletteColors, Node.GetLeavesCount, hpc]
      · simp [Node.paletteColors, Node.GetLeavesCount, hpc, Nat.pos_of_ne_zero hpc]
    · simpa [Node.paletteColors, Node.GetLeavesCount] using ihch
  · simp [NodeList.paletteList, NodeList.leavesCount]
  · intro t ts iht ihts
    simp [NodeList.paletteList, NodeList.leavesCount, iht, ihts]

theorem paletteColors_length (t : Node) : t.paletteColors.length = t.GetLeavesCount :=
  paletteColors_length_both.1 t

theorem zeroStats_spec_both :
    (∀ t : Node, t.zeroStats = true →
      t.goodStats = true ∧ t.GetLeavesCount = 0 ∧ t.paletteColors = []) ∧
    (∀ ts : NodeList, ts.zeroList = true →
      ts.goodStatsList = true ∧ ts.leavesCount = 0 ∧ ts.paletteList = []) := by
  refine node_mutual_ind _ _ ?_ ?_ ?_
  · intro l hc wa ch pc r g b a ihch h
    simp only [Node.zeroStats, Bool.and_eq_true, beq_iff_eq] at h
    obtain ⟨⟨⟨⟨⟨hpc, hr⟩, hg⟩, hb⟩, ha⟩, hch⟩ := h
    obtain ⟨h1, h2, h3⟩ := ihch hch
    cases hc <;>
      simp [Node.goodStats, Node.GetLeavesCount, Node.paletteColors, hpc, hr, hg, hb, ha,
        h1, h2, h3]
  · intro _
    simp [NodeList.goodStatsList, NodeList.leavesCount, NodeList.paletteList]
  · intro t ts iht ihts h
    simp only [NodeList.zeroList, Bool.and_eq_true] at h
    obtain ⟨h1, h2, h3⟩ := iht h.1
    obtain ⟨h4, h5, h6⟩ := ihts h.2
    simp [NodeList.goodStatsList, NodeList.leavesCount, NodeList.paletteList,
      h1, h2, h3, h4, h5, h6]

/-! ## Properties of the constructed tree -/

theorem replicate_isNil (n : Nat) (t : Node) (h : 0 < n) :
    (NodeList.replicate n t).isNil = false := by
  cases n with
  | zero => omega
  | succ n => rfl

theorem zeroList_replicate (n : Nat) (t : Node) (h : t.zeroStats = true) :
    (NodeList.replicate n t).zeroList = true := by
  induction n with
  | zero => rfl
  | succ n ih => simp [NodeList.replicate, NodeList.zeroList, h, ih]

theorem uniformList_replicate (n d : Nat) (t : Node) (h : t.uniform d = true) :
    (NodeList.replicate n t).uniformList d = true := by
  induction n with
  | zero => rfl
  | succ n ih => simp [NodeList.replicate, NodeList.uniformList, h, ih]

theorem hcConsistentList_replicate (n : Nat) (t : Node) (h : t.hcConsistent = true) :
    (NodeList.replicate n t).hcConsistentList = true := by
  induction n with
  | zero => rfl
  | succ n ih => simp [NodeList.replicate, NodeList.hcConsistentList, h, ih]

theorem levelsBelowList_replicate (n bnd : Nat) (t : Node) (h : t.levelsBelow bnd = true) :
    (NodeList.replicate n t).levelsBelowList bnd = true := by
  induction n with
  | zero => rfl
  | succ n ih => simp [NodeList.replicate, NodeList.levelsBelowList, h, ih]

theorem mkNodeAux_zeroStats : ∀ d l : Nat, ∀ hc wa : Bool,
    (mkNodeAux d l hc wa).zeroStats = true := by
  intro d
  induction d using Nat.strong_induction_on with
  | _ d ih =>
    match d with
    | 0 => intro l hc wa; rfl
    | 1 => intro l hc wa; rfl
    | d+2 =>
      intro l hc wa
      simp [mkNodeAux, Node.zeroStats,
        zeroList_replicate _ _ (ih (d+1) (by omega) (l+1) (!(d == 0)) wa)]

theorem mkNodeAux_uniform : ∀ d l : Nat, ∀ wa : Bool,
    (mkNodeAux (d+2) l true wa).uniform (d+1) = true := by
  intro d
  induction d using Nat.strong_induction_on with
  | _ d ih =>
    intro l wa
    have h1 : (0:Nat) < if wa then 16 else 8 := by cases wa <;> decide
    have h2 : (mkNodeAux (d+1) (l+1) (!(d == 0)) wa).uniform d = true := by
      match d with
      | 0 => rfl
      | e+1 =>
        have hflag : (!(e+1 == 0)) = true := by simp
        rw [hflag]
        exact ih e (by omega) (l+1) wa
    show (Node.mk l true wa
        (NodeList.replicate (if wa then 16 else 8) (mkNodeAux (d+1) (l+1) (!(d == 0)) wa))
        0 0 0 0 0).uniform (d+1) = true
    simp [Node.uniform,
      replicate_isNil (if wa then 16 else 8) (mkNodeAux (d+1) (l+1) (!(d == 0)) wa) h1,
      uniformList_replicate (if wa then 16 else 8) d (mkNodeAux (d+1) (l+1) (!(d == 0)) wa) h2]

theorem mkNodeAux_hcConsistent : ∀ d l : Nat, ∀ wa : Bool,
    (mkNodeAux (d+2) l true wa).hcConsistent = true := by
  intro d
  induction d using Nat.strong_induction_on with
  | _ d ih =>
    intro l wa
    have h1 : (0:Nat) < if wa then 16 else 8 := by cases wa <;> decide
    have h2 : (mkNodeAux (d+1) (l+1) (!(d == 0)) wa).hcConsistent = true := by
      match d with
      | 0 => rfl
      | e+1 =>
        have hflag : (!(e+1 == 0)) = true := by simp
        rw [hflag]
        exact ih e (by omega) (l+1) wa
    show (Node.mk l true wa
        (NodeList.replicate (if wa then 16 else 8) (mkNodeAux (d+1) (l+1) (!(d == 0)) wa))
        0 0 0 0 0).hcConsistent = true
    simp [Node.hcConsistent,
      replicate_isNil (if wa then 16 else 8) (mkNodeAux (d+1) (l+1) (!(d == 0)) wa) h1,
      hcConsistentList_replicate (if wa then 16 else 8) (mkNodeAux (d+1) (l+1) (!(d == 0)) wa) h2]

theorem mkNodeAux_levelsBelow : ∀ d l : Nat, ∀ hc wa : Bool, ∀ bnd : Nat,
    l < bnd → l + d ≤ bnd → (mkNodeAux d l hc wa).levelsBelow bnd = true := by
  intro d
  induction d using Nat.strong_induction_on with
  | _ d ih =>
    match d with
    | 0 =>
      intro l hc wa bnd h1 _
      simp [mkNodeAux, Node.levelsBelow, NodeList.levelsBelowList, h1]
    | 1 =>
      intro l hc wa bnd h1 _
      simp [mkNodeAux, Node.levelsBelow, NodeList.levelsBelowList, h1]
    | d+2 =>
      intro l hc wa bnd h1 h2
      have h3 : (mkNodeAux (d+1) (l+1) (!(d == 0)) wa).levelsBelow bnd = true :=
        ih (d+1) (by omega) (l+1) _ wa bnd (by omega) (by omega)
      simp [mkNodeAux, Node.levelsBelow, h1, levelsBelowList_replicate _ _ _ h3]

theorem uniform_height : ∀ d : Nat, ∀ t : Node, t.uniform d = true → t.height = d := by
  intro d
  induction d with
  | zero =>
    intro t h
    cases t with
    | mk l hc wa ch pc r g b a =>
      simp only [Node.uniform, Bool.and_eq_true] at h
      cases ch with
      | nil => rfl
      | cons u us => simp [NodeList.isNil] at h
  | succ d ihd =>
    intro t h
    cases t with
    | mk l hc wa ch pc r g b a =>
      simp only [Node.uniform, Bool.and_eq_true] at h
      obtain ⟨⟨hhc, hnil⟩, hlist⟩ := h
      have haux : ∀ ts : NodeList, ts.uniformList d = true → ts.isNil = false →
          ts.heightAux = d + 1 := by
        refine nodeList_ind _ ?_ ?_
        · intro _ h2
          simp [NodeList.isNil] at h2
        · intro t ts ihts h1 _
          simp only [NodeList.uniformList, Bool.and_eq_true] at h1
          have ht := ihd t h1.1
          cases ts with
          | nil => simp [NodeList.heightAux, ht]
          | cons u us =>
            have h4 := ihts h1.2 rfl
            show max (t.height + 1) (NodeList.cons u us).heightAux = d + 1
            rw [ht, h4]
            omega
      simp only [Node.height]
      exact haux ch hlist (by simpa using hnil)

theorem addAt_nil (c : Color) (i : Nat) : NodeList.addAt c i .nil = .nil := by
  cases i <;> rfl

/-- An internal node with no children (the degenerate `levelDeep ≤ 1` root)
absorbs colors without recording them anywhere. -/
theorem AddColor_childless (c : Color) (l : Nat) (wa : Bool) (pc r g b a : Nat) :
    (Node.mk l true wa .nil pc r g b a).AddColor c = Node.mk l true wa .nil pc r g b a := by
  simp [Node.AddColor, addAt_nil]

/-! ## Feeding whole sequences -/

theorem feedColors_uniform (xs : List Color) : ∀ t : Node, ∀ d : Nat,
    (feedColors xs t).uniform d = t.uniform d := by
  induction xs with
  | nil => intro t d; rfl
  | cons c cs ih =>
    intro t d
    rw [feedColors_cons, ih, AddColor_uniform]

theorem feedColors_goodStats (xs : List Color) : ∀ t : Node,
    (feedColors xs t).goodStats = t.goodStats := by
  induction xs with
  | nil => intro t; rfl
  | cons c cs ih =>
    intro t
    rw [feedColors_cons, ih, AddColor_goodStats]

theorem feedColors_hcConsistent (xs : List Color) : ∀ t : Node,
    (feedColors xs t).hcConsistent = t.hcConsistent := by
  induction xs with
  | nil => intro t; rfl
  | cons c cs ih =>
    intro t
    rw [feedColors_cons, ih, AddColor_hcConsistent_both.1]

theorem feedColors_levelsBelow (xs : List Color) : ∀ t : Node, ∀ bnd : Nat,
    (feedColors xs t).levelsBelow bnd = t.levelsBelow bnd := by
  induction xs with
  | nil => intro t bnd; rfl
  | cons c cs ih =>
    intro t bnd
    rw [feedColors_cons, ih, AddColor_levelsBelow_both.1]

theorem feedColors_leaves (xs : List Color) : ∀ t : Node,
    (feedColors xs t).GetLeavesCount = t.GetLeavesCount + freshCount t xs := by
  induction xs with
  | nil => intro t; simp [feedColors, freshCount]
  | cons c cs ih =>
    intro t
    rw [feedColors_cons, ih, AddColor_leaves]
    simp only [freshCount]
    omega

/-! ## Killing the last level -/

theorem uniformList_zero_allLeaves : ∀ ts : NodeList,
    ts.uniformList 0 = true → ts.allLeaves = true := by
  refine nodeList_ind _ ?_ ?_
  · intro _; rfl
  · intro t ts ih h
    simp only [NodeList.uniformList, Bool.and_eq_true] at h
    cases t with
    | mk l hc wa ch pc r g b a =>
      simp only [Node.uniform, Bool.and_eq_true] at h
      simp [NodeList.allLeaves, Node.m_haveChildren, h.1.1, ih h.2]

theorem uniformList_succ_not_allLeaves (d : Nat) (t : Node) (ts : NodeList)
    (h : (NodeList.cons t ts).uniformList (d+1) = true) :
    (NodeList.cons t ts).allLeaves = false := by
  simp only [NodeList.uniformList, Bool.and_eq_true] at h
  cases t with
  | mk l hc wa ch pc r g b a =>
    simp only [Node.uniform, Bool.and_eq_true] at h
    simp [NodeList.allLeaves, Node.m_haveChildren, h.1.1.1]

theorem allLeaves_anyNonEmpty_iff : ∀ ts : NodeList, ts.allLeaves = true →
    (ts.anyNonEmptyLeaf = true ↔ 0 < ts.sumPc) := by
  refine nodeList_ind _ ?_ ?_
  · intro _
    simp [NodeList.anyNonEmptyLeaf, NodeList.sumPc]
  · intro t ts ih h
    simp only [NodeList.allLeaves, Bool.and_eq_true] at h
    cases t with
    | mk l hc wa ch pc r g b a =>
      simp only [Node.m_haveChildren] at h
      simp only [NodeList.anyNonEmptyLeaf, NodeList.sumPc, Node.m_haveChildren,
        Node.m_pixel_count, Bool.or_eq_true, Bool.and_eq_true, h.1, ih h.2,
        Bool.not_true, Bool.not_false, true_and, decide_eq_true_eq]
      omega

theorem allLeaves_any_leavesCount_pos : ∀ ts : NodeList, ts.allLeaves = true →
    ts.anyNonEmptyLeaf = true → 1 ≤ ts.leavesCount := by
  refine nodeList_ind _ ?_ ?_
  · intro _ h
    simp [NodeList.anyNonEmptyLeaf] at h
  · intro t ts ih hall hany
    simp only [NodeList.allLeaves, Bool.and_eq_true] at hall
    cases t with
    | mk l hc wa ch pc r g b a =>
      simp only [Node.m_haveChildren] at hall
      simp only [NodeList.anyNonEmptyLeaf, Node.m_haveChildren, Node.m_pixel_count,
        Bool.or_eq_true, Bool.and_eq_true, hall.1, Bool.not_true, Bool.not_false,
        true_and, decide_eq_true_eq] at hany
      rcases hany with hpc | hrest
      · have hhc : hc = false := by simpa using hall.1
        have h5 : (Node.mk l hc wa ch pc r g b a).GetLeavesCount = 1 := by
          simp [Node.GetLeavesCount, hhc, hpc]
        simp only [NodeList.leavesCount, h5]
        omega
      · have := ih hall.2 hrest
        simp only [NodeList.leavesCount]
        omega

theorem killList_isNil : ∀ ts : NodeList, (NodeList.killList ts).isNil = ts.isNil := by
  intro ts
  cases ts <;> rfl

theorem kill_of_leaf (l : Nat) (wa : Bool) (ch : NodeList) (pc r g b a : Nat) :
    (Node.mk l false wa ch pc r g b a).KillLastLevel = Node.mk l false wa ch pc r g b a := rfl

theorem kill_exact : ∀ d : Nat, ∀ t : Node, t.uniform (d+1) = true → t.goodStats = true →
    t.KillLastLevel.GetLeavesCount = t.populatedPreLeaf := by
  intro d
  induction d with
  | zero =>
    intro t hu hg
    cases t with
    | mk l hc wa ch pc r g b a =>
      simp only [Node.uniform, Bool.and_eq_true] at hu
      obtain ⟨⟨hhc, hnil⟩, hlist⟩ := hu
      simp only [Node.goodStats, Bool.and_eq_true, hhc, Bool.not_true, Bool.false_or,
        beq_iff_eq] at hg
      have hall := uniformList_zero_allLeaves ch hlist
      rw [hhc]
      simp only [Node.KillLastLevel, if_true, hall, Node.GetLeavesCount,
        Bool.false_eq_true, if_false, Node.populatedPreLeaf, hg.1.1.1.1.1]
      by_cases hany : ch.anyNonEmptyLeaf = true
      · have hpos := (allLeaves_anyNonEmpty_iff ch hall).mp hany
        simp [hany, hpos]
      · have hb : ch.anyNonEmptyLeaf = false := by
          cases hcase : ch.anyNonEmptyLeaf
          · rfl
          · exact absurd hcase hany
        have hzero : ch.sumPc = 0 := by
          by_contra hne
          exact hany ((allLeaves_anyNonEmpty_iff ch hall).mpr (Nat.pos_of_ne_zero hne))
        simp [hb, hzero]
  | succ d ih =>
    intro t hu hg
    cases t with
    | mk l hc wa ch pc r g b a =>
      simp only [Node.uniform, Bool.and_eq_true] at hu
      obtain ⟨⟨hhc, hnil⟩, hlist⟩ := hu
      simp only [Node.goodStats, Bool.and_eq_true] at hg
      have hall : ch.allLeaves = false := by
        cases ch with
        | nil => simp [NodeList.isNil] at hnil
        | cons u us => exact uniformList_succ_not_allLeaves d u us hlist
      have hinner : ∀ ts : NodeList, ts.uniformList (d+1) = true →
          ts.goodStatsList = true →
          (NodeList.killList ts).leavesCount = ts.populatedPreLeafList := by
        refine nodeList_ind _ ?_ ?_
        · intro _ _; rfl
        · intro u us ihus h1 h2
          simp only [NodeList.uniformList, Bool.and_eq_true] at h1
          simp only [NodeList.goodStatsList, Bool.and_eq_true] at h2
          simp only [NodeList.killList, NodeList.leavesCount, NodeList.populatedPreLeafList,
            ih u h1.1 h2.1, ihus h1.2 h2.2]
      rw [hhc]
      simp only [Node.KillLastLevel, if_true, hall, Bool.false_eq_true, if_false,
        Node.GetLeavesCount, Node.populatedPreLeaf, hinner ch hlist hg.2]

theorem ppl_le_count : ∀ d : Nat, ∀ t : Node, t.uniform d = true →
    t.populatedPreLeaf ≤ t.GetLeavesCount := by
  intro d
  induction d using Nat.strong_induction_on with
  | _ d ih =>
    match d with
    | 0 =>
      intro t hu
      cases t with
      | mk l hc wa ch pc r g b a =>
        simp only [Node.uniform, Bool.and_eq_true] at hu
        rw [show hc = false by simpa using hu.1]
        simp [Node.populatedPreLeaf]
    | 1 =>
      intro t hu
      cases t with
      | mk l hc wa ch pc r g b a =>
        simp only [Node.uniform, Bool.and_eq_true] at hu
        obtain ⟨⟨hhc, _⟩, hlist⟩ := hu
        have hall := uniformList_zero_allLeaves ch hlist
        rw [hhc]
        simp only [Node.populatedPreLeaf, if_true, hall, Node.GetLeavesCount]
        by_cases hany : ch.anyNonEmptyLeaf = true
        · simpa [hany] using allLeaves_any_leavesCount_pos ch hall hany
        · have hb : ch.anyNonEmptyLeaf = false := by
            cases hcase : ch.anyNonEmptyLeaf
            · rfl
            · exact absurd hcase hany
          simp [hb]
    | d+2 =>
      intro t hu
      cases t with
      | mk l hc wa ch pc r g b a =>
        simp only [Node.uniform, Bool.and_eq_true] at hu
        obtain ⟨⟨hhc, hnil⟩, hlist⟩ := hu
        have hall : ch.allLeaves = false := by
          cases ch with
          | nil => simp [NodeList.isNil] at hnil
          | cons u us => exact uniformList_succ_not_allLeaves d u us hlist
        have hinner : ∀ ts : NodeList, ts.uniformList (d+1) = true →
            ts.populatedPreLeafList ≤ ts.leavesCount := by
          refine nodeList_ind _ ?_ ?_
          · intro _; exact Nat.le_refl 0
          · intro u us ihus h1
            simp only [NodeList.uniformList, Bool.and_eq_true] at h1
            have h2 := ih (d+1) (by omega) u h1.1
            have h3 := ihus h1.2
            simp only [NodeList.populatedPreLeafList, NodeList.leavesCount]
            omega
        rw [hhc]
        simp only [Node.populatedPreLeaf, if_true, hall, Bool.false_eq_true, if_false,
          Node.GetLeavesCount]
        exact hinner ch hlist

theorem kill_uniform : ∀ d : Nat, ∀ t : Node, t.uniform (d+1) = true →
    t.KillLastLevel.uniform d = true := by
  intro d
  induction d with
  | zero =>
    intro t hu
    cases t with
    | mk l hc wa ch pc r g b a =>
      simp only [Node.uniform, Bool.and_eq_true] at hu
      obtain ⟨⟨hhc, _⟩, hlist⟩ := hu
      have hall := uniformList_zero_allLeaves ch hlist
      rw [hhc]
      simp [Node.KillLastLevel, hall, Node.uniform, NodeList.isNil]
  | succ d ih =>
    intro t hu
    cases t with
    | mk l hc wa ch pc r g b a =>
      simp only [Node.uniform, Bool.and_eq_true] at hu
      obtain ⟨⟨hhc, hnil⟩, hlist⟩ := hu
      have hall : ch.allLeaves = false := by
        cases ch with
        | nil => simp [NodeList.isNil] at hnil
        | cons u us => exact uniformList_succ_not_allLeaves d u us hlist
      have hinner : ∀ ts : NodeList, ts.uniformList (d+1) = true →
          (NodeList.killList ts).uniformList d = true := by
        refine nodeList_ind _ ?_ ?_
        · intro _; rfl
        · intro u us ihus h1
          simp only [NodeList.uniformList, Bool.and_eq_true] at h1
          simp only [NodeList.killList, NodeList.uniformList, Bool.and_eq_true]
          exact ⟨ih u h1.1, ihus h1.2⟩
      rw [hhc]
      simp only [Node.KillLastLevel, if_true, hall, Bool.false_eq_true, if_false,
        Node.uniform, Bool.and_eq_true, killList_isNil]
      exact ⟨⟨by trivial, by simpa using hnil⟩, hinner ch hlist⟩

theorem kill_goodStats_both :
    (∀ t : Node, t.goodStats = true → t.KillLastLevel.goodStats = true) ∧
    (∀ ts : NodeList, ts.goodStatsList = true → (NodeList.killList ts).goodStatsList = true) := by
  refine node_mutual_ind _ _ ?_ ?_ ?_
  · intro l hc wa ch pc r g b a ihch hg
    simp only [Node.goodStats, Bool.and_eq_true] at hg
    cases hc
    · simpa [Node.KillLastLevel, Node.goodStats] using hg
    · simp only [Node.KillLastLevel, if_true]
      by_cases hall : ch.allLeaves = true
      · simp [hall, Node.goodStats, NodeList.goodStatsList]
      · have hb : ch.allLeaves = false := by
          cases hcase : ch.allLeaves
          · rfl
          · exact absurd hcase hall
        simp only [hb, Bool.false_eq_true, if_false, Node.goodStats, Bool.and_eq_true]
        exact ⟨hg.1, ihch hg.2⟩
  · intro _; rfl
  · intro t ts iht ihts h
    simp only [NodeList.goodStatsList, Bool.and_eq_true] at h
    simp only [NodeList.killList, NodeList.goodStatsList, Bool.and_eq_true]
    exact ⟨iht h.1, ihts h.2⟩

theorem kill_goodStats (t : Node) (h : t.goodStats = true) :
    t.KillLastLevel.goodStats = true :=
  kill_goodStats_both.1 t h

theorem count_leaf_le_one (t : Node) (h : t.uniform 0 = true) : t.GetLeavesCount ≤ 1 := by
  cases t with
  | mk l hc wa ch pc r g b a =>
    simp only [Node.uniform, Bool.and_eq_true] at h
    rw [show hc = false by simpa using h.1]
    simp only [Node.GetLeavesCount, Bool.false_eq_true, if_false]
    by_cases hpc : 0 < pc <;> simp [hpc]

theorem kill_count_le : ∀ d : Nat, ∀ t : Node, t.uniform d = true → t.goodStats = true →
    t.KillLastLevel.GetLeavesCount ≤ t.GetLeavesCount := by
  intro d t hu hg
  match d with
  | 0 =>
    cases t with
    | mk l hc wa ch pc r g b a =>
      simp only [Node.uniform, Bool.and_eq_true] at hu
      rw [show hc = false by simpa using hu.1]
      rw [kill_of_leaf]
  | d+1 =>
    rw [kill_exact d t hu hg]
    exact ppl_le_count (d+1) t hu

theorem prune_noop (fuel target : Nat) (t : Node) (h : t.GetLeavesCount ≤ target) :
    pruneLoop fuel target t = t := by
  cases fuel with
  | zero => rfl
  | succ fuel => simp [pruneLoop, h]

theorem prune_le : ∀ fuel target d : Nat, ∀ t : Node,
    t.uniform d = true → t.goodStats = true → d ≤ fuel → 1 ≤ target →
    (pruneLoop fuel target t).GetLeavesCount ≤ target := by
  intro fuel
  induction fuel with
  | zero =>
    intro target d t hu _ hd ht
    have hd0 : d = 0 := by omega
    subst hd0
    simpa [pruneLoop] using le_trans (count_leaf_le_one t hu) ht
  | succ fuel ih =>
    intro target d t hu hg hd ht
    by_cases hc : t.GetLeavesCount ≤ target
    · simp [pruneLoop, hc]
    · simp only [pruneLoop, hc, if_false]
      match d with
      | 0 => exact absurd (le_trans (count_leaf_le_one t hu) ht) hc
      | e+1 =>
        exact ih target e t.KillLastLevel (kill_uniform e t hu) (kill_goodStats t hg)
          (by omega) ht

theorem prune_mono : ∀ fuel target d : Nat, ∀ t : Node,
    t.uniform d = true → t.goodStats = true →
    (pruneLoop fuel target t).GetLeavesCount ≤ t.GetLeavesCount := by
  intro fuel
  induction fuel with
  | zero =>
    intro target d t _ _
    exact Nat.le_refl _
  | succ fuel ih =>
    intro target d t hu hg
    by_cases hc : t.GetLeavesCount ≤ target
    · simp [pruneLoop, hc]
    · simp only [pruneLoop, hc, if_false]
      match d with
      | 0 =>
        have hleaf : t.KillLastLevel = t := by
          cases t with
          | mk l hc2 wa ch pc r g b a =>
            simp only [Node.uniform, Bool.and_eq_true] at hu
            rw [show hc2 = false by simpa using hu.1]
            rw [kill_of_leaf]
        rw [hleaf]
        exact ih target 0 t hu hg
      | e+1 =>
        exact le_trans
          (ih target e t.KillLastLevel (kill_uniform e t hu) (kill_goodStats t hg))
          (kill_count_le (e+1) t hu hg)

/-! ## Distinct colors bound the number of non-empty leaves -/

theorem pathEmpty_persist_contra (t : Node) (c c' : Color)
    (h : (t.AddColor c').pathEmpty c = true) : t.pathEmpty c = true := by
  by_contra hne
  have hf : t.pathEmpty c = false := by
    cases hcase : t.pathEmpty c
    · rfl
    · exact absurd hcase hne
  rw [pathEmpty_persist t c c' hf] at h
  exact Bool.false_ne_true h

theorem freshCount_le_filter : ∀ xs : List Color, ∀ t : Node,
    freshCount t xs ≤ ((xs.filter fun c => t.pathEmpty c).toFinset).card := by
  intro xs
  induction xs with
  | nil => intro t; simp [freshCount]
  | cons c cs ih =>
    intro t
    simp only [freshCount]
    have hsub : ((cs.filter fun x => (t.AddColor c).pathEmpty x).toFinset) ⊆
        (((c :: cs).filter fun x => t.pathEmpty x).toFinset) := by
      intro x hx
      simp only [List.mem_toFinset, List.mem_filter] at hx ⊢
      exact ⟨List.mem_cons_of_mem _ hx.1, pathEmpty_persist_contra t x c hx.2⟩
    by_cases hp : t.pathEmpty c = true
    · have hcmem : c ∈ (((c :: cs).filter fun x => t.pathEmpty x).toFinset) := by
        simp [List.mem_filter, hp]
      have hcnot : c ∉ ((cs.filter fun x => (t.AddColor c).pathEmpty x).toFinset) := by
        simp [List.mem_filter, pathEmpty_self t c]
      have hss := (Finset.ssubset_iff_of_subset hsub).mpr ⟨c, hcmem, hcnot⟩
      have hcard := Finset.card_lt_card hss
      have hih := ih (t.AddColor c)
      simp only [hp, if_true]
      omega
    · have hpf : t.pathEmpty c = false := by
        cases hcase : t.pathEmpty c
        · rfl
        · exact absurd hcase hp
      have hcard := Finset.card_le_card hsub
      have hih := ih (t.AddColor c)
      simp only [hpf, Bool.false_eq_true, if_false]
      omega

theorem freshCount_le_card (xs : List Color) (t : Node) :
    freshCount t xs ≤ xs.toFinset.card := by
  refine le_trans (freshCount_le_filter xs t) (Finset.card_le_card ?_)
  intro x hx
  simp only [List.mem_toFinset, List.mem_filter] at hx ⊢
  exact hx.1

/-! ## The octree driver -/

theorem Octree.feed_eq (xs : List Color) : ∀ o : Octree,
    o.feed xs = ⟨o.m_paletteCapacity, feedColors xs o.m_root, o.m_levelDeep⟩ := by
  induction xs with
  | nil => intro o; cases o; rfl
  | cons c cs ih =>
    intro o
    show (o.AddColor c).feed cs = _
    rw [ih]
    rfl

theorem feedColors_childless (xs : List Color) : ∀ l : Nat, ∀ wa : Bool, ∀ pc r g b a : Nat,
    feedColors xs (Node.mk l true wa .nil pc r g b a) = Node.mk l true wa .nil pc r g b a := by
  induction xs with
  | nil => intro l wa pc r g b a; rfl
  | cons c cs ih =>
    intro l wa pc r g b a
    rw [feedColors_cons, AddColor_childless]
    exact ih l wa pc r g b a

theorem mkNodeAux_le_one (d l : Nat) (hc wa : Bool) (h : d ≤ 1) :
    mkNodeAux d l hc wa = Node.mk l hc wa .nil 0 0 0 0 0 := by
  cases d with
  | zero => rfl
  | succ d =>
    cases d with
    | zero => rfl
    | succ d => omega

theorem mkNode_root_uniform (e : Nat) (wa : Bool) :
    (mkNode 0 true (e+2) wa).uniform (e+1) = true := by
  show (mkNodeAux (e+2-0) 0 true wa).uniform (e+1) = true
  exact mkNodeAux_uniform e 0 wa

theorem mkNode_root_zeroStats (ld : Nat) (wa : Bool) :
    (mkNode 0 true ld wa).zeroStats = true :=
  mkNodeAux_zeroStats (ld - 0) 0 true wa

/-- Pruning with the tree's own height as fuel always reaches a leaf count
at or below a positive target. -/
theorem palette_node_le (N d : Nat) (t : Node) (hu : t.uniform d = true)
    (hg : t.goodStats = true) (hN : 1 ≤ N) :
    (pruneLoop t.height N t).GetLeavesCount ≤ N := by
  rw [uniform_height d t hu]
  exact prune_le d N d t hu hg (Nat.le_refl d) hN

theorem palette_card_le (N ld : Nat) (wa : Bool) (xs : List Color) (hN : 1 ≤ N) :
    (((Octree.make N ld wa).feed xs).GeneratePalette).length ≤ N := by
  rw [Octree.feed_eq]
  by_cases hld : 2 ≤ ld
  · obtain ⟨e, he⟩ : ∃ e, ld = e + 2 := ⟨ld - 2, by omega⟩
    subst he
    have hz := mkNode_root_zeroStats (e+2) wa
    have hg0 := (zeroStats_spec_both.1 _ hz).1
    have hu0 := mkNode_root_uniform e wa
    have hu : (feedColors xs (mkNode 0 true (e+2) wa)).uniform (e+1) = true := by
      rw [feedColors_uniform]; exact hu0
    have hg : (feedColors xs (mkNode 0 true (e+2) wa)).goodStats = true := by
      rw [feedColors_goodStats]; exact hg0
    show ((pruneLoop (feedColors xs (mkNode 0 true (e+2) wa)).height N
      (feedColors xs (mkNode 0 true (e+2) wa))).paletteColors).length ≤ N
    rw [paletteColors_length]
    exact palette_node_le N (e+1) _ hu hg hN
  · have hroot : mkNode 0 true ld wa = Node.mk 0 true wa .nil 0 0 0 0 0 :=
      mkNodeAux_le_one (ld - 0) 0 true wa (by omega)
    show ((pruneLoop (feedColors xs (mkNode 0 true ld wa)).height N
      (feedColors xs (mkNode 0 true ld wa))).paletteColors).length ≤ N
    rw [hroot, feedColors_childless]
    show ((pruneLoop 0 N (Node.mk 0 true wa .nil 0 0 0 0 0)).paletteColors).length ≤ N
    show (NodeList.paletteList .nil).length ≤ N
    simp [NodeList.paletteList]

theorem palette_count_lt_distinct (N ld : Nat) (wa : Bool) (xs : List Color)
    (hN : 1 ≤ N) (hdist : xs.toFinset.card < N) :
    (((Octree.make N ld wa).feed xs).GeneratePalette).length < N := by
  rw [Octree.feed_eq]
  by_cases hld : 2 ≤ ld
  · obtain ⟨e, he⟩ : ∃ e, ld = e + 2 := ⟨ld - 2, by omega⟩
    subst he
    have hz := mkNode_root_zeroStats (e+2) wa
    have hg0 := (zeroStats_spec_both.1 _ hz).1
    have hcount0 := (zeroStats_spec_both.1 _ hz).2.1
    have hu0 := mkNode_root_uniform e wa
    have hu : (feedColors xs (mkNode 0 true (e+2) wa)).uniform (e+1) = true := by
      rw [feedColors_uniform]; exact hu0
    have hg : (feedColors xs (mkNode 0 true (e+2) wa)).goodStats = true := by
      rw [feedColors_goodStats]; exact hg0
    have hfed : (feedColors xs (mkNode 0 true (e+2) wa)).GetLeavesCount < N := by
      rw [feedColors_leaves, hcount0]
      have := freshCount_le_card xs (mkNode 0 true (e+2) wa)
      omega
    show ((pruneLoop (feedColors xs (mkNode 0 true (e+2) wa)).height N
      (feedColors xs (mkNode 0 true (e+2) wa))).paletteColors).length < N
    rw [paletteColors_length]
    exact lt_of_le_of_lt
      (prune_mono _ N (e+1) _ hu hg) hfed
  · have hroot : mkNode 0 true ld wa = Node.mk 0 true wa .nil 0 0 0 0 0 :=
      mkNodeAux_le_one (ld - 0) 0 true wa (by omega)
    show ((pruneLoop (feedColors xs (mkNode 0 true ld wa)).height N
      (feedColors xs (mkNode 0 true ld wa))).paletteColors).length < N
    rw [hroot, feedColors_childless]
    show (NodeList.paletteList .nil).length < N
    simpa [NodeList.paletteList] using hN

/-! ## Shapes and merging -/

theorem sameShape_refl_both :
    (∀ t : Node, t.sameShape t = true) ∧
    (∀ ts : NodeList, NodeList.sameShapeList ts ts = true) := by
  refine node_mutual_ind _ _ ?_ ?_ ?_
  · intro l hc wa ch pc r g b a ihch
    simp [Node.sameShape, ihch]
  · rfl
  · intro t ts iht ihts
    simp [NodeList.sameShapeList, iht, ihts]

theorem sameShape_symm_both :
    (∀ t u : Node, t.sameShape u = true → u.sameShape t = true) ∧
    (∀ ts us : NodeList,
      NodeList.sameShapeList ts us = true → NodeList.sameShapeList us ts = true) := by
  refine node_mutual_ind _ _ ?_ ?_ ?_
  · intro l hc wa ch pc r g b a ihch u h
    cases u with
    | mk l2 hc2 wa2 ch2 pc2 r2 g2 b2 a2 =>
      simp only [Node.sameShape, Bool.and_eq_true, beq_iff_eq] at h ⊢
      obtain ⟨⟨⟨h1, h2⟩, h3⟩, h4⟩ := h
      exact ⟨⟨⟨h1.symm, h2.symm⟩, h3.symm⟩, ihch ch2 h4⟩
  · intro us h
    cases us with
    | nil => rfl
    | cons u us => simp [NodeList.sameShapeList] at h
  · intro t ts iht ihts us h
    cases us with
    | nil => simp [NodeList.sameShapeList] at h
    | cons u us =>
      simp only [NodeList.sameShapeList, Bool.and_eq_true] at h ⊢
      exact ⟨iht u h.1, ihts us h.2⟩

theorem sameShape_trans_both :
    (∀ t u v : Node, t.sameShape u = true → u.sameShape v = true → t.sameShape v = true) ∧
    (∀ ts us vs : NodeList, NodeList.sameShapeList ts us = true →
      NodeList.sameShapeList us vs = true → NodeList.sameShapeList ts vs = true) := by
  refine node_mutual_ind _ _ ?_ ?_ ?_
  · intro l hc wa ch pc r g b a ihch u v h1 h2
    cases u with
    | mk l2 hc2 wa2 ch2 pc2 r2 g2 b2 a2 =>
      cases v with
      | mk l3 hc3 wa3 ch3 pc3 r3 g3 b3 a3 =>
        simp only [Node.sameShape, Bool.and_eq_true, beq_iff_eq] at h1 h2 ⊢
        obtain ⟨⟨⟨a1, a2⟩, a3⟩, a4⟩ := h1
        obtain ⟨⟨⟨b1, b2⟩, b3⟩, b4⟩ := h2
        exact ⟨⟨⟨a1.trans b1, a2.trans b2⟩, a3.trans b3⟩, ihch ch2 ch3 a4 b4⟩
  · intro us vs h1 h2
    cases us with
    | nil => exact h2
    | cons u us => simp [NodeList.sameShapeList] at h1
  · intro t ts iht ihts us vs h1 h2
    cases us with
    | nil => simp [NodeList.sameShapeList] at h1
    | cons u us =>
      cases vs with
      | nil => simp [NodeList.sameShapeList] at h2
      | cons v vs =>
        simp only [NodeList.sameShapeList, Bool.and_eq_true] at h1 h2 ⊢
        exact ⟨iht u v h1.1 h2.1, ihts us vs h1.2 h2.2⟩

theorem AddColor_sameShape_both :
    (∀ t : Node, ∀ c, (t.AddColor c).sameShape t = true) ∧
    (∀ ts : NodeList, ∀ c i, NodeList.sameShapeList (NodeList.addAt c i ts) ts = true) := by
  refine node_mutual_ind _ _ ?_ ?_ ?_
  · intro l hc wa ch pc r g b a ihch c
    cases hc
    · simp [Node.AddColor, Node.sameShape, sameShape_refl_both.2]
    · simp [Node.AddColor, Node.sameShape, ihch]
  · intro c i
    cases i <;> rfl
  · intro t ts iht ihts c i
    cases i
    · simp [NodeList.addAt, NodeList.sameShapeList, iht, sameShape_refl_both.2]
    · simp [NodeList.addAt, NodeList.sameShapeList, ihts, sameShape_refl_both.1]

theorem feed_sameShape (xs : List Color) : ∀ t : Node,
    (feedColors xs t).sameShape t = true := by
  induction xs with
  | nil => intro t; exact sameShape_refl_both.1 t
  | cons c cs ih =>
    intro t
    rw [feedColors_cons]
    exact sameShape_trans_both.1 _ _ _ (ih (t.AddColor c)) (AddColor_sameShape_both.1 t c)

theorem merge_assoc_both :
    (∀ t u v : Node, (t.merge u).merge v = t.merge (u.merge v)) ∧
    (∀ ts us vs : NodeList,
      NodeList.mergeList (NodeList.mergeList ts us) vs
        = NodeList.mergeList ts (NodeList.mergeList us vs)) := by
  refine node_mutual_ind _ _ ?_ ?_ ?_
  · intro l hc wa ch pc r g b a ihch u v
    cases u with
    | mk l2 hc2 wa2 ch2 pc2 r2 g2 b2 a2 =>
      cases v with
      | mk l3 hc3 wa3 ch3 pc3 r3 g3 b3 a3 =>
        simp only [Node.merge, Node.mk.injEq, true_and]
        refine ⟨ihch ch2 ch3, ?_, ?_, ?_, ?_, ?_⟩ <;> omega
  · intro us vs
    cases us <;> cases vs <;> rfl
  · intro t ts iht ihts us vs
    cases us with
    | nil => cases vs <;> rfl
    | cons u us =>
      cases vs with
      | nil => rfl
      | cons v vs =>
        simp only [NodeList.mergeList, NodeList.cons.injEq]
        exact ⟨iht u v, ihts us vs⟩

theorem merge_comm_both :
    (∀ t u : Node, t.sameShape u = true → t.merge u = u.merge t) ∧
    (∀ ts us : NodeList, NodeList.sameShapeList ts us = true →
      NodeList.mergeList ts us = NodeList.mergeList us ts) := by
  refine node_mutual_ind _ _ ?_ ?_ ?_
  · intro l hc wa ch pc r g b a ihch u h
    cases u with
    | mk l2 hc2 wa2 ch2 pc2 r2 g2 b2 a2 =>
      simp only [Node.sameShape, Bool.and_eq_true, beq_iff_eq] at h
      obtain ⟨⟨⟨h1, h2⟩, h3⟩, h4⟩ := h
      subst h1; subst h2; subst h3
      simp only [Node.merge, Node.mk.injEq, true_and]
      refine ⟨ihch ch2 h4, ?_, ?_, ?_, ?_, ?_⟩ <;> omega
  · intro us h
    cases us with
    | nil => rfl
    | cons u us => simp [NodeList.sameShapeList] at h
  · intro t ts iht ihts us h
    cases us with
    | nil => simp [NodeList.sameShapeList] at h
    | cons u us =>
      simp only [NodeList.sameShapeList, Bool.and_eq_true] at h
      simp only [NodeList.mergeList, NodeList.cons.injEq]
      exact ⟨iht u h.1, ihts us h.2⟩

theorem merge_zero_both :
    (∀ t u : Node, t.sameShape u = true → u.zeroStats = true → t.merge u = t) ∧
    (∀ ts us : NodeList, NodeList.sameShapeList ts us = true → us.zeroList = true →
      NodeList.mergeList ts us = ts) := by
  refine node_mutual_ind _ _ ?_ ?_ ?_
  · intro l hc wa ch pc r g b a ihch u h hz
    cases u with
    | mk l2 hc2 wa2 ch2 pc2 r2 g2 b2 a2 =>
      simp only [Node.sameShape, Bool.and_eq_true, beq_iff_eq] at h
      simp only [Node.zeroStats, Bool.and_eq_true, beq_iff_eq] at hz
      obtain ⟨⟨⟨⟨⟨z1, z2⟩, z3⟩, z4⟩, z5⟩, z6⟩ := hz
      subst z1; subst z2; subst z3; subst z4; subst z5
      simp only [Node.merge, Nat.add_zero]
      rw [ihch ch2 h.2 z6]
  · intro us h hz
    cases us with
    | nil => rfl
    | cons u us => simp [NodeList.sameShapeList] at h
  · intro t ts iht ihts us h hz
    cases us with
    | nil => simp [NodeList.sameShapeList] at h
    | cons u us =>
      simp only [NodeList.sameShapeList, Bool.and_eq_true] at h
      simp only [NodeList.zeroList, Bool.and_eq_true] at hz
      simp only [NodeList.mergeList, NodeList.cons.injEq]
      exact ⟨iht u h.1 hz.1, ihts us h.2 hz.2⟩

theorem merge_AddColor_both :
    (∀ t u : Node, ∀ c, t.sameShape u = true →
      t.merge (u.AddColor c) = (t.merge u).AddColor c) ∧
    (∀ ts us : NodeList, ∀ c i, NodeList.sameShapeList ts us = true →
      NodeList.mergeList ts (NodeList.addAt c i us)
        = NodeList.addAt c i (NodeList.mergeList ts us)) := by
  refine node_mutual_ind _ _ ?_ ?_ ?_
  · intro l hc wa ch pc r g b a ihch u c h
    cases u with
    | mk l2 hc2 wa2 ch2 pc2 r2 g2 b2 a2 =>
      simp only [Node.sameShape, Bool.and_eq_true, beq_iff_eq] at h
      obtain ⟨⟨⟨h1, h2⟩, h3⟩, h4⟩ := h
      subst h1; subst h2; subst h3
      cases hc
      · simp only [Node.AddColor, Bool.false_eq_true, if_false, Node.merge, Node.mk.injEq,
          true_and]
        omega
      · simp only [Node.AddColor, if_true, Node.merge]
        rw [ihch ch2 c _ h4]
  · intro us c i h
    cases us with
    | nil => cases i <;> rfl
    | cons u us => simp [NodeList.sameShapeList] at h
  · intro t ts iht ihts us c i h
    cases us with
    | nil => simp [NodeList.sameShapeList] at h
    | cons u us =>
      simp only [NodeList.sameShapeList, Bool.and_eq_true] at h
      cases i
      · simp only [NodeList.addAt, NodeList.mergeList]
        rw [iht u c h.1]
      · simp only [NodeList.addAt, NodeList.mergeList]
        rw [ihts us c _ h.2]

theorem merge_feed_right (ys : List Color) : ∀ t t0 : Node,
    t.sameShape t0 = true → t0.zeroStats = true →
    t.merge (feedColors ys t0) = feedColors ys t := by
  induction ys using List.reverseRecOn with
  | nil => intro t t0 h hz; exact merge_zero_both.1 t t0 h hz
  | append_singleton ys y ih =>
    intro t t0 h hz
    rw [feedColors_append, feedColors_append]
    show t.merge ((feedColors ys t0).AddColor y) = (feedColors ys t).AddColor y
    have hshape : t.sameShape (feedColors ys t0) = true :=
      sameShape_trans_both.1 t t0 (feedColors ys t0) h
        (sameShape_symm_both.1 _ _ (feed_sameShape ys t0))
    rw [merge_AddColor_both.1 t (feedColors ys t0) y hshape, ih t t0 h hz]

/-- Accumulating two color sequences into separate trees grown from the
same freshly constructed root and merging the results is the same as
accumulating their concatenation into one tree. -/
theorem merge_feed (xs ys : List Color) (t0 : Node) (hz : t0.zeroStats = true) :
    (feedColors xs t0).merge (feedColors ys t0) = feedColors (xs ++ ys) t0 := by
  rw [feedColors_append]
  exact merge_feed_right ys (feedColors xs t0) t0 (feed_sameShape xs t0) hz

/-! ## Feeding one repeated color -/

theorem feed_replicate_eq_iterate (k : Nat) (c : Color) : ∀ t : Node,
    feedColors (List.replicate k c) t = (Node.AddColor c)^[k] t := by
  induction k with
  | zero => intro t; rfl
  | succ k ih =>
    intro t
    rw [List.replicate_succ, feedColors_cons, ih, Function.iterate_succ_apply]

theorem AddColor_iterate_leaf (k : Nat) (c : Color) (l : Nat) (wa : Bool) (ch : NodeList)
    (pc r g b a : Nat) :
    (Node.AddColor c)^[k] (Node.mk l false wa ch pc r g b a)
      = Node.mk l false wa ch (pc + k) (r + k * c.r) (g + k * c.g) (b + k * c.b)
          (a + k * c.a) := by
  induction k with
  | zero => simp
  | succ k ih =>
    rw [Function.iterate_succ_apply', ih]
    simp only [Node.AddColor, Bool.false_eq_true, if_false]
    congr 1 <;> ring

theorem addAt_iterate_head (k : Nat) (c : Color) (t : Node) (ts : NodeList) :
    (NodeList.addAt c 0)^[k] (NodeList.cons t ts)
      = NodeList.cons ((Node.AddColor c)^[k] t) ts := by
  induction k with
  | zero => rfl
  | succ k ih =>
    rw [Function.iterate_succ_apply', ih]
    simp [NodeList.addAt, Function.iterate_succ_apply']

theorem addAt_iterate_tail (k : Nat) (c : Color) (i : Nat) (t : Node) (ts : NodeList) :
    (NodeList.addAt c (i+1))^[k] (NodeList.cons t ts)
      = NodeList.cons t ((NodeList.addAt c i)^[k] ts) := by
  induction k with
  | zero => rfl
  | succ k ih =>
    rw [Function.iterate_succ_apply', ih]
    simp [NodeList.addAt, Function.iterate_succ_apply']

theorem AddColor_iterate_internal (k : Nat) (c : Color) (l : Nat) (wa : Bool) (ch : NodeList)
    (pc r g b a : Nat) :
    (Node.AddColor c)^[k] (Node.mk l true wa ch pc r g b a)
      = Node.mk l true wa ((NodeList.addAt c (GetIndex c l wa))^[k] ch) pc r g b a := by
  induction k with
  | zero => rfl
  | succ k ih =>
    rw [Function.iterate_succ_apply', ih]
    simp [Node.AddColor, Function.iterate_succ_apply']

theorem paletteList_replicate_zero (m : Nat) (u : Node) (hz : u.zeroStats = true) :
    (NodeList.replicate m u).paletteList = [] := by
  induction m with
  | zero => rfl
  | succ m ih =>
    simp [NodeList.replicate, NodeList.paletteList, (zeroStats_spec_both.1 u hz).2.2, ih]

theorem paletteList_addAt_replicate (c : Color) : ∀ m i k : Nat, ∀ u : Node,
    u.zeroStats = true → i < m →
    ((NodeList.addAt c i)^[k] (NodeList.replicate m u)).paletteList
      = ((Node.AddColor c)^[k] u).paletteColors := by
  intro m
  induction m with
  | zero =>
    intro i k u _ hi
    omega
  | succ m ih =>
    intro i k u hz hi
    show ((NodeList.addAt c i)^[k] (NodeList.cons u (NodeList.replicate m u))).paletteList = _
    cases i with
    | zero =>
      rw [addAt_iterate_head]
      simp [NodeList.paletteList, paletteList_replicate_zero m u hz]
    | succ i =>
      rw [addAt_iterate_tail]
      simp only [NodeList.paletteList, (zeroStats_spec_both.1 u hz).2.2, List.nil_append]
      exact ih i k u hz (by omega)

theorem GetIndex_lt (c : Color) (lvl : Nat) (wa : Bool) :
    GetIndex c lvl wa < if wa then 16 else 8 := by
  have h1 : (c.r >>> (7 - lvl)) % 2 < 2 := Nat.mod_lt _ (by norm_num)
  have h2 : (c.g >>> (7 - lvl)) % 2 < 2 := Nat.mod_lt _ (by norm_num)
  have h3 : (c.b >>> (7 - lvl)) % 2 < 2 := Nat.mod_lt _ (by norm_num)
  have h4 : (c.a >>> (7 - lvl)) % 2 < 2 := Nat.mod_lt _ (by norm_num)
  cases wa <;> simp [GetIndex] <;> omega

theorem single_color_palette : ∀ d l : Nat, ∀ wa hcflag : Bool, ∀ k : Nat, ∀ c : Color,
    hcflag = decide (2 ≤ d) → 1 ≤ k →
    ((Node.AddColor c)^[k] (mkNodeAux d l hcflag wa)).paletteColors = [c] := by
  intro d
  induction d using Nat.strong_induction_on with
  | _ d ih =>
    match d with
    | 0 =>
      intro l wa hcflag k c hflag hk
      rw [show hcflag = false by simpa using hflag]
      rw [show mkNodeAux 0 l false wa = Node.mk l false wa .nil 0 0 0 0 0 from rfl]
      rw [AddColor_iterate_leaf]
      have hkpos : 0 < k := hk
      simp [Node.paletteColors, hkpos, Nat.mul_div_cancel_left _ hkpos]
    | 1 =>
      intro l wa hcflag k c hflag hk
      rw [show hcflag = false by simpa using hflag]
      rw [show mkNodeAux 1 l false wa = Node.mk l false wa .nil 0 0 0 0 0 from rfl]
      rw [AddColor_iterate_leaf]
      have hkpos : 0 < k := hk
      simp [Node.paletteColors, hkpos, Nat.mul_div_cancel_left _ hkpos]
    | d+2 =>
      intro l wa hcflag k c hflag hk
      rw [show hcflag = true by simpa using hflag]
      show ((Node.AddColor c)^[k] (Node.mk l true wa
        (NodeList.replicate (if wa then 16 else 8) (mkNodeAux (d+1) (l+1) (!(d == 0)) wa))
        0 0 0 0 0)).paletteColors = [c]
      rw [AddColor_iterate_internal]
      show (((NodeList.addAt c (GetIndex c l wa))^[k]
        (NodeList.replicate (if wa then 16 else 8)
          (mkNodeAux (d+1) (l+1) (!(d == 0)) wa))).paletteList) = [c]
      rw [paletteList_addAt_replicate c _ _ k _
        (mkNodeAux_zeroStats (d+1) (l+1) (!(d == 0)) wa) (GetIndex_lt c l wa)]
      refine ih (d+1) (by omega) (l+1) wa (!(d == 0)) k c ?_ hk
      cases d <;> simp

theorem single_color_generate (N ld : Nat) (wa : Bool) (k : Nat) (c : Color)
    (hN : 1 ≤ N) (hld : 2 ≤ ld) (hk : 1 ≤ k) :
    ((Octree.make N ld wa).feed (List.replicate k c)).GeneratePalette = [c] := by
  rw [Octree.feed_eq]
  show (pruneLoop (feedColors (List.replicate k c) (mkNode 0 true ld wa)).height N
    (feedColors (List.replicate k c) (mkNode 0 true ld wa))).paletteColors = [c]
  rw [feed_replicate_eq_iterate]
  have hpal : ((Node.AddColor c)^[k] (mkNode 0 true ld wa)).paletteColors = [c] := by
    show ((Node.AddColor c)^[k] (mkNodeAux (ld - 0) 0 true wa)).paletteColors = [c]
    refine single_color_palette (ld - 0) 0 wa true k c ?_ hk
    have : 2 ≤ ld - 0 := by omega
    exact (decide_eq_true this).symm
  have hcount : ((Node.AddColor c)^[k] (mkNode 0 true ld wa)).GetLeavesCount = 1 := by
    rw [← paletteColors_length, hpal]
    rfl
  rw [prune_noop _ N _ (by rw [hcount]; exact hN)]
  exact hpal

/-! ## The row-conversion loop -/

theorem convertRowsFrom_complete : ∀ rows : List (List Color),
    ∀ f : List Color → List Color, ∀ cancel : Nat → Bool, ∀ s : Nat,
    (∀ i, i < rows.length → cancel (s + i) = false) →
    convertRowsFrom f cancel s rows = (.completed, rows.map f) := by
  intro rows
  induction rows with
  | nil => intro f cancel s _; rfl
  | cons row rows ih =>
    intro f cancel s h
    have h0 : cancel s = false := by
      have := h 0 (by simp)
      simpa using this
    have hrec := ih f cancel (s+1) (fun i hi => by
      have := h (i+1) (by simp; omega)
      simpa [Nat.add_assoc, Nat.add_comm 1 i] using this)
    simp [convertRowsFrom, h0, hrec]

theorem convertRowsFrom_canceled : ∀ rows : List (List Color),
    ∀ f : List Color → List Color, ∀ cancel : Nat → Bool, ∀ s j : Nat,
    j < rows.length → (∀ i, i < j → cancel (s + i) = false) → cancel (s + j) = true →
    convertRowsFrom f cancel s rows = (.canceled, (rows.take j).map f) := by
  intro rows
  induction rows with
  | nil =>
    intro f cancel s j hj _ _
    simp at hj
  | cons row rows ih =>
    intro f cancel s j hj hbefore hat
    cases j with
    | zero =>
      have h0 : cancel s = true := by simpa using hat
      simp [convertRowsFrom, h0]
    | succ j =>
      have h0 : cancel s = false := by
        have := hbefore 0 (by omega)
        simpa using this
      have hrec := ih f cancel (s+1) j (by simpa using Nat.lt_of_succ_lt_succ hj)
        (fun i hi => by
          have := hbefore (i+1) (by omega)
          simpa [Nat.add_assoc, Nat.add_comm 1 i] using this)
        (by
          have : s + (j + 1) = s + 1 + j := by omega
          rw [← this]
          exact hat)
      simp [convertRowsFrom, h0, hrec]

/-! ## The default Node constructor cannot terminate -/

theorem defaultCtorResult_impossible : ∀ t : Node, IsDefaultCtorResult t → False := by
  refine node_ind (fun t => IsDefaultCtorResult t → False) ?_
  intro l hc wa ch pc r g b a ih h
  cases h with
  | intro chX hlen hmem =>
    cases ch with
    | nil => simp [NodeList.length] at hlen
    | cons u us =>
      exact ih u (by simp [NodeList.toList]) (hmem u (by simp [NodeList.toList]))

theorem kill_of_uniform0 (t : Node) (h : t.uniform 0 = true) : t.KillLastLevel = t := by
  cases t with
  | mk l hc wa ch pc r g b a =>
    simp only [Node.uniform, Bool.and_eq_true] at h
    rw [show hc = false by simpa using h.1]
    exact kill_of_leaf l wa ch pc r g b a

theorem kill_iterate_uniform : ∀ k d : Nat, ∀ t : Node,
    t.uniform d = true → t.goodStats = true →
    (Node.KillLastLevel^[k] t).uniform (d - k) = true
    ∧ (Node.KillLastLevel^[k] t).goodStats = true := by
  intro k
  induction k with
  | zero => intro d t hu hg; exact ⟨hu, hg⟩
  | succ k ih =>
    intro d t hu hg
    rw [Function.iterate_succ_apply]
    match d with
    | 0 =>
      rw [kill_of_uniform0 t hu]
      have h2 := ih 0 t hu hg
      simpa using h2
    | e+1 =>
      have h2 := ih e t.KillLastLevel (kill_uniform e t hu) (kill_goodStats t hg)
      simpa [Nat.succ_sub_succ] using h2

/-! ## The claims -/

/-- C1: for every sequence of colors fed (via AddColor, one by one, in any
number of calls) into an Octree constructed with a valid target palette
size N (N ≥ 1, as construction requires), GeneratePalette produces a
palette with at most N entries; the palette has exactly one entry per
surviving non-empty leaf, and if fewer distinct colors were fed than N the
palette has fewer than N entries. -/
theorem C1_palette_size_bounded (xs : List Color) (N ld : Nat) (wa : Bool) (hN : 1 ≤ N) :
    (((Octree.make N ld wa).feed xs).GeneratePalette).length ≤ N
    ∧ (((Octree.make N ld wa).feed xs).GeneratePalette).length
        = (pruneLoop ((Octree.make N ld wa).feed xs).m_root.height N
            ((Octree.make N ld wa).feed xs).m_root).GetLeavesCount
    ∧ (xs.toFinset.card < N →
        (((Octree.make N ld wa).feed xs).GeneratePalette).length < N) := by
  refine ⟨palette_card_le N ld wa xs hN, ?_,
    fun hd => palette_count_lt_distinct N ld wa xs hN hd⟩
  rw [Octree.feed_eq]
  exact paletteColors_length _

/-- C1 witness at a concrete input: one color fed into a fresh octree with
target 2 and depth 2. -/
theorem C1_witness : 1 ≤ 2
    ∧ ((((Octree.make 2 2 false).feed [⟨255, 0, 0, 255⟩]).GeneratePalette).length ≤ 2) :=
  ⟨by decide, (C1_palette_size_bounded [⟨255, 0, 0, 255⟩] 2 2 false (by decide)).1⟩

/-- C2 counterexample: the claim that the constructed Octree behaves as if
levelDeep were clamped into [1,8] fails — with levelDeep = 9 the
pre-allocated tree has height 8 while the tree for the clamped depth 8 has
height 7, and construction with target palette size 0 is accepted (the
octree exists, with palette capacity 0) rather than rejected. -/
theorem C2_counterexample :
    (Octree.make 256 9 false).m_root.height = 8
    ∧ (mkNode 0 true (CLAMP 1 9 8) false).height = 7
    ∧ (Octree.make 0 6 false).m_paletteCapacity = 0 := by
  refine ⟨?_, ?_, rfl⟩
  · show (mkNodeAux 9 0 true false).height = 8
    exact uniform_height 8 _ (mkNodeAux_uniform 7 0 false)
  · show (mkNodeAux 8 0 true false).height = 7
    exact uniform_height 7 _ (mkNodeAux_uniform 6 0 false)

/-- C2 amended: the constructor clamps only the stored m_levelDeep into
[1,8]; the pre-allocated root tree is built with the raw (unclamped)
levelDeep, and every target quantity — including 0 — is accepted and stored
as the palette capacity; nothing is rejected at construction. -/
theorem C2_construction_behavior (q ld : Nat) (wa : Bool) :
    (Octree.make q ld wa).m_levelDeep = CLAMP 1 ld 8
    ∧ (Octree.make q ld wa).m_root = mkNode 0 true ld wa
    ∧ (Octree.make q ld wa).m_paletteCapacity = q
    ∧ 1 ≤ (Octree.make q ld wa).m_levelDeep
    ∧ (Octree.make q ld wa).m_levelDeep ≤ 8 := by
  refine ⟨rfl, rfl, rfl, ?_, ?_⟩ <;>
    · show _
      simp only [Octree.make, CLAMP]
      omega

/-- C3: octree accumulation is order-independent — feeding two orderings of
the same multiset of colors into freshly constructed octrees with the same
configuration yields identical palettes (same entries, same order). -/
theorem C3_order_independence (N ld : Nat) (wa : Bool) (xs ys : List Color)
    (h : xs.Perm ys) :
    ((Octree.make N ld wa).feed xs).GeneratePalette
      = ((Octree.make N ld wa).feed ys).GeneratePalette := by
  rw [Octree.feed_eq, Octree.feed_eq, feedColors_perm h]

/-- C3 witness: the two orderings of two concrete colors give the same
palette. -/
theorem C3_witness :
    ([⟨255, 0, 0, 255⟩, ⟨0, 255, 0, 255⟩] : List Color).Perm
      [⟨0, 255, 0, 255⟩, ⟨255, 0, 0, 255⟩]
    ∧ ((Octree.make 4 2 false).feed [⟨255, 0, 0, 255⟩, ⟨0, 255, 0, 255⟩]).GeneratePalette
      = ((Octree.make 4 2 false).feed [⟨0, 255, 0, 255⟩, ⟨255, 0, 0, 255⟩]).GeneratePalette :=
  ⟨List.Perm.swap _ _ _,
    C3_order_independence 4 2 false _ _ (List.Perm.swap _ _ _)⟩

/-- C4: octree accumulation is a merge homomorphism — accumulating two row
partitions of an image into separate octrees (same fresh configuration) and
merging the trees by pairwise addition of corresponding nodes' pixelCount
and channel sums, then generating, yields the same palette as accumulating
the whole image into one octree; and the pairwise merge is associative, and
commutative on same-shaped trees. -/
theorem C4_merge_homomorphism (N ld : Nat) (wa : Bool) (rows1 rows2 : List (List Color)) :
    Octree.GeneratePalette ⟨N,
        Node.merge (((Octree.make N ld wa).feedWithImage rows1).m_root)
          (((Octree.make N ld wa).feedWithImage rows2).m_root), CLAMP 1 ld 8⟩
      = ((Octree.make N ld wa).feedWithImage (rows1 ++ rows2)).GeneratePalette
    ∧ (∀ t u v : Node, (t.merge u).merge v = t.merge (u.merge v))
    ∧ (∀ t u : Node, t.sameShape u = true → t.merge u = u.merge t) := by
  refine ⟨?_, merge_assoc_both.1, merge_comm_both.1⟩
  show Octree.GeneratePalette ⟨N,
      Node.merge (((Octree.make N ld wa).feed rows1.flatten).m_root)
        (((Octree.make N ld wa).feed rows2.flatten).m_root), CLAMP 1 ld 8⟩
    = ((Octree.make N ld wa).feed (rows1 ++ rows2).flatten).GeneratePalette
  rw [Octree.feed_eq, Octree.feed_eq, Octree.feed_eq]
  show Octree.GeneratePalette ⟨N,
      Node.merge (feedColors rows1.flatten (mkNode 0 true ld wa))
        (feedColors rows2.flatten (mkNode 0 true ld wa)), CLAMP 1 ld 8⟩
    = Octree.GeneratePalette ⟨N,
        feedColors (rows1 ++ rows2).flatten (mkNode 0 true ld wa), CLAMP 1 ld 8⟩
  rw [merge_feed _ _ _ (mkNode_root_zeroStats ld wa), List.flatten_append]

/-- C5: on a populated uniform octree, KillLastLevel's effect on the leaf
count reported by GetLeavesCount: it strictly decreases the count whenever
the count exceeds the number of populated pre-leaf (level maxDepth-1)
cells, repeated application never increases the count, and once the count
equals the populated pre-leaf cell count one more application keeps it
unchanged. -/
theorem C5_kill_last_level (d : Nat) (t : Node)
    (hu : t.uniform (d+1) = true) (hg : t.goodStats = true) :
    (t.populatedPreLeaf < t.GetLeavesCount →
      t.KillLastLevel.GetLeavesCount < t.GetLeavesCount)
    ∧ (∀ k : Nat, (Node.KillLastLevel^[k+1] t).GetLeavesCount
        ≤ (Node.KillLastLevel^[k] t).GetLeavesCount)
    ∧ (t.GetLeavesCount = t.populatedPreLeaf →
      t.KillLastLevel.GetLeavesCount = t.GetLeavesCount) := by
  refine ⟨?_, ?_, ?_⟩
  · intro hlt
    rw [kill_exact d t hu hg]
    exact hlt
  · intro k
    obtain ⟨hu2, hg2⟩ := kill_iterate_uniform k (d+1) t hu hg
    rw [Function.iterate_succ_apply']
    exact kill_count_le (d+1-k) _ hu2 hg2
  · intro heq
    rw [kill_exact d t hu hg, heq]

/-- C5 witness: two colors in distinct octants at depth-2; the fed tree has
2 non-empty leaves and 1 populated pre-leaf cell. -/
theorem C5_witness :
    (feedColors [⟨255, 0, 0, 255⟩, ⟨0, 255, 0, 255⟩] (mkNode 0 true 2 false)).uniform 1 = true
    ∧ (feedColors [⟨255, 0, 0, 255⟩, ⟨0, 255, 0, 255⟩] (mkNode 0 true 2 false)).goodStats = true
    ∧ (((feedColors [⟨255, 0, 0, 255⟩, ⟨0, 255, 0, 255⟩]
          (mkNode 0 true 2 false)).populatedPreLeaf
        < (feedColors [⟨255, 0, 0, 255⟩, ⟨0, 255, 0, 255⟩]
            (mkNode 0 true 2 false)).GetLeavesCount →
        (feedColors [⟨255, 0, 0, 255⟩, ⟨0, 255, 0, 255⟩]
            (mkNode 0 true 2 false)).KillLastLevel.GetLeavesCount
          < (feedColors [⟨255, 0, 0, 255⟩, ⟨0, 255, 0, 255⟩]
              (mkNode 0 true 2 false)).GetLeavesCount)
      ∧ (∀ k : Nat, (Node.KillLastLevel^[k+1]
            (feedColors [⟨255, 0, 0, 255⟩, ⟨0, 255, 0, 255⟩]
              (mkNode 0 true 2 false))).GetLeavesCount
          ≤ (Node.KillLastLevel^[k]
              (feedColors [⟨255, 0, 0, 255⟩, ⟨0, 255, 0, 255⟩]
                (mkNode 0 true 2 false))).GetLeavesCount)
      ∧ ((feedColors [⟨255, 0, 0, 255⟩, ⟨0, 255, 0, 255⟩]
            (mkNode 0 true 2 false)).GetLeavesCount
          = (feedColors [⟨255, 0, 0, 255⟩, ⟨0, 255, 0, 255⟩]
              (mkNode 0 true 2 false)).populatedPreLeaf →
        (feedColors [⟨255, 0, 0, 255⟩, ⟨0, 255, 0, 255⟩]
            (mkNode 0 true 2 false)).KillLastLevel.GetLeavesCount
          = (feedColors [⟨255, 0, 0, 255⟩, ⟨0, 255, 0, 255⟩]
              (mkNode 0 true 2 false)).GetLeavesCount)) :=
  ⟨by decide, by decide, C5_kill_last_level 0 _ (by decide) (by decide)⟩

/-- C6 counterexample: levelDeep = 1 is a valid configuration (it lies in
the clamp range [1,8]) but its pre-allocated tree is a childless internal
root, so feeding the color (255,0,0,255) once with target size 1 yields an
empty palette instead of a one-entry palette equal to that color. -/
theorem C6_counterexample :
    ((Octree.make 1 1 false).feed (List.replicate 1 ⟨255, 0, 0, 255⟩)).GeneratePalette = []
    ∧ ([] : List Color) ≠ [⟨255, 0, 0, 255⟩] :=
  ⟨by decide, by decide⟩

/-- C6 amended: for every color c, every repetition count k ≥ 1 and every
Octree configuration with target size ≥ 1 and levelDeep in [2,8] (at
levelDeep = 1 the pre-allocated tree has no leaves and the palette comes
out empty), feeding c exactly k times and generating yields the one-entry
palette [c]. -/
theorem C6_single_color (N ld k : Nat) (wa : Bool) (c : Color)
    (hN : 1 ≤ N) (hld : 2 ≤ ld) (_hld8 : ld ≤ 8) (hk : 1 ≤ k) :
    ((Octree.make N ld wa).feed (List.replicate k c)).GeneratePalette = [c] :=
  single_color_generate N ld wa k c hN hld hk

/-- C6 witness: color (10,20,30,255) fed 3 times with target 1, depth 2. -/
theorem C6_witness : 1 ≤ 1 ∧ 2 ≤ 2 ∧ (2:Nat) ≤ 8 ∧ 1 ≤ 3
    ∧ ((Octree.make 1 2 false).feed (List.replicate 3 ⟨10, 20, 30, 255⟩)).GeneratePalette
      = [⟨10, 20, 30, 255⟩] :=
  ⟨by decide, by decide, by decide, by decide,
    C6_single_color 1 2 3 false ⟨10, 20, 30, 255⟩ (by decide) (by decide) (by decide)
      (by decide)⟩

/-- C7 counterexample: with the valid stored depth 1 (levelDeep = 1 is
within the clamp range) the reachable root node has m_haveChildren = true
yet an empty children vector — it sits at the deepest pre-allocated level
but is not a leaf, refuting "a node is a leaf iff hasChildren == false" for
every reachable state. -/
theorem C7_counterexample :
    (Octree.make 256 1 false).m_root.m_haveChildren = true
    ∧ (Octree.make 256 1 false).m_root.m_children = NodeList.nil
    ∧ (Octree.make 256 1 false).m_root.hcConsistent = false :=
  ⟨rfl, rfl, rfl⟩

/-- C7 amended: for every configuration with levelDeep ≥ 2, every octree
state reachable by feeding colors satisfies the invariants — a node is a
leaf iff m_haveChildren is false, pixel statistics are accumulated only at
leaves (internal counters stay zero), every stored node level is below
levelDeep, and the tree is uniform of height levelDeep - 1, so every node
at the deepest pre-allocated level is a leaf and the depth never exceeds
the configured maximum. -/
theorem C7_invariants (ld : Nat) (wa : Bool) (xs : List Color) (hld : 2 ≤ ld) :
    (feedColors xs (mkNode 0 true ld wa)).hcConsistent = true
    ∧ (feedColors xs (mkNode 0 true ld wa)).goodStats = true
    ∧ (feedColors xs (mkNode 0 true ld wa)).uniform (ld - 1) = true
    ∧ (feedColors xs (mkNode 0 true ld wa)).levelsBelow ld = true
    ∧ (feedColors xs (mkNode 0 true ld wa)).height = ld - 1 := by
  obtain ⟨e, rfl⟩ : ∃ e, ld = e + 2 := ⟨ld - 2, by omega⟩
  have hz := mkNode_root_zeroStats (e+2) wa
  have hgs := (zeroStats_spec_both.1 _ hz).1
  have hun := mkNode_root_uniform e wa
  refine ⟨?_, ?_, ?_, ?_, ?_⟩
  · rw [feedColors_hcConsistent]
    exact mkNodeAux_hcConsistent e 0 wa
  · rw [feedColors_goodStats]
    exact hgs
  · rw [feedColors_uniform]
    exact hun
  · rw [feedColors_levelsBelow]
    exact mkNodeAux_levelsBelow (e+2) 0 true wa (e+2) (by omega) (by omega)
  · exact uniform_height (e+1) _ (by rw [feedColors_uniform]; exact hun)

/-- C7 witness: depth-2 configuration, one color fed. -/
theorem C7_witness : 2 ≤ 2
    ∧ ((feedColors [⟨255, 0, 0, 255⟩] (mkNode 0 true 2 false)).hcConsistent = true
    ∧ (feedColors [⟨255, 0, 0, 255⟩] (mkNode 0 true 2 false)).goodStats = true
    ∧ (feedColors [⟨255, 0, 0, 255⟩] (mkNode 0 true 2 false)).uniform (2 - 1) = true
    ∧ (feedColors [⟨255, 0, 0, 255⟩] (mkNode 0 true 2 false)).levelsBelow 2 = true
    ∧ (feedColors [⟨255, 0, 0, 255⟩] (mkNode 0 true 2 false)).height = 2 - 1) :=
  ⟨by decide, C7_invariants 2 false [⟨255, 0, 0, 255⟩] (by decide)⟩

/-- C8: the row-conversion loop polls the delegate's cancellation flag
between rows; when the flag never fires it completes with every row
converted, when the flag first fires before row j it stops early, returns
exactly the rows converted so far, and signals "canceled" — an outcome
distinct from "completed". -/
theorem C8_cancellation (f : List Color → List Color) (cancel : Nat → Bool)
    (rows : List (List Color)) (j : Nat) :
    ((∀ i, i < rows.length → cancel i = false) →
      convert_pixel_format f cancel rows = (ConvertStatus.completed, rows.map f))
    ∧ (j < rows.length → (∀ i, i < j → cancel i = false) → cancel j = true →
      convert_pixel_format f cancel rows = (ConvertStatus.canceled, (rows.take j).map f))
    ∧ ConvertStatus.canceled ≠ ConvertStatus.completed := by
  refine ⟨?_, ?_, by decide⟩
  · intro h
    exact convertRowsFrom_complete rows f cancel 0 (fun i hi => by simpa using h i hi)
  · intro hj hb hat
    exact convertRowsFrom_canceled rows f cancel 0 j hj
      (fun i hi => by simpa using hb i hi) (by simpa using hat)

/-- C9: the default constructor Node::Node() cannot terminate — its member
initialiser m_children(8) requires 8 default-constructed children, each
built by Node::Node() again, so no finite Node value satisfies the
constructor's defining equations; the claim that it terminates in a zeroed
level-0 leaf is contradicted by the code. -/
theorem C9_default_ctor_unsatisfiable : (∃ t : Node, IsDefaultCtorResult t) = False :=
  eq_false fun h => Exists.elim h fun t ht => defaultCtorResult_impossible t ht

/-- C10: the default-constructed Octree stores maxDepth 6, excludes alpha
(8-child internal nodes, 3-channel partitioning), holds a 256-entry palette
buffer, and every palette it generates after feeding any color sequence has
at most 256 entries. -/
theorem C10_default_octree (xs : List Color) :
    Octree.mkDefault.m_levelDeep = 6
    ∧ Octree.mkDefault.m_paletteCapacity = 256
    ∧ Octree.mkDefault.m_root.m_withAlpha = false
    ∧ Octree.mkDefault.m_root.m_children.length = 8
    ∧ ((Octree.mkDefault.feed xs).GeneratePalette).length ≤ 256 := by
  refine ⟨rfl, rfl, rfl, rfl, ?_⟩
  show (((Octree.make 256 6 false).feed xs).GeneratePalette).length ≤ 256
  exact palette_card_le 256 6 false xs (by omega)

end render
